import Mathlib

/-!
Shallow embedding of the bredis ORM (src/bredis): the attribute typecast
layer (orm/attributes.py), the model validation/write lifecycle
(orm/base.py), the async batch manager (orm/managers.py) and the Mutex
locking protocol (orm/base.py).  Python values are modelled by `PyVal`
(floats as rationals, datetime/date objects at epoch-second granularity,
which is exactly the granularity of the `time.mktime`/`fromtimestamp`
casts used by the code), raised exceptions by `Except PyErr`, and the
Redis client by an explicit `Store` state threaded through each operation
together with a trace of the issued commands.
-/

namespace Bredis

/-- Decimal digit character, as used by Python number rendering. -/
def digitChar (d : Nat) : Char := Char.ofNat (48 + d)

/-- Big-endian decimal digit characters of `n` (empty for 0), with
explicit fuel so that the recursion is structural. -/
def natDigitCharsAux (fuel n : Nat) : List Char :=
  match fuel with
  | 0 => []
  | f + 1 => if n = 0 then [] else natDigitCharsAux f (n / 10) ++ [digitChar (n % 10)]

/-- Big-endian decimal digit characters of `n` (empty for 0). -/
def natDigitChars (n : Nat) : List Char := natDigitCharsAux n n

/-- Python `unicode(n)` for a natural number. -/
def pyStrOfNat (n : Nat) : String := if n = 0 then "0" else String.mk (natDigitChars n)

/-- Python `unicode(n)` for an integer, the rendering used by
`IntegerField.typecast_for_storage` and the datetime storage casts. -/
def pyStrOfInt : Int → String
  | Int.ofNat n => pyStrOfNat n
  | Int.negSucc m => "-" ++ pyStrOfNat (m + 1)

/-- Numeric value of a decimal digit character. -/
def charDigitVal (c : Char) : Nat := c.toNat - 48

/-- All characters are decimal digits. -/
def allDigits (cs : List Char) : Bool := cs.all fun c => c.isDigit

/-- Value of a big-endian decimal digit string. -/
def digitsToNat (cs : List Char) : Nat := cs.foldl (fun a c => a * 10 + charDigitVal c) 0

/-- Digit-sequence payload of Python `int(text)`: nonempty, all digits. -/
def parseNatDigits (cs : List Char) : Option Nat :=
  if cs ≠ [] ∧ allDigits cs then some (digitsToNat cs) else none

/-- Python `int(text)` on a character list: optional sign, then decimal
digits; `none` models the `ValueError` raised on malformed text. -/
def pyIntOfChars : List Char → Option Int
  | [] => none
  | c :: cs =>
    if c = '-' then (parseNatDigits cs).map fun n => -(n : Int)
    else if c = '+' then (parseNatDigits cs).map fun n => (n : Int)
    else (parseNatDigits (c :: cs)).map fun n => (n : Int)

/-- Python `int(text)` on a string.  (CPython also accepts surrounding
whitespace; no claim depends on that.) -/
def pyIntOfString (s : String) : Option Int := pyIntOfChars s.data

/-- Split a character list at the first decimal point. -/
def splitDot : List Char → List Char × Option (List Char)
  | [] => ([], none)
  | c :: cs =>
    if c = '.' then ([], some cs)
    else
      let p := splitDot cs
      (c :: p.1, p.2)

/-- Unsigned payload of Python `float(text)`: digit text with at most one
decimal point, at least one digit overall (exponents and specials are not
modelled; no claim reaches them). -/
def parseUnsignedFloat (cs : List Char) : Option ℚ :=
  let p := splitDot cs
  match p.2 with
  | Option.none => (parseNatDigits p.1).map fun n => (n : ℚ)
  | Option.some fp =>
    if (p.1 ≠ [] ∨ fp ≠ []) ∧ allDigits p.1 ∧ allDigits fp then
      some ((digitsToNat p.1 : ℚ) + (digitsToNat fp : ℚ) / 10 ^ fp.length)
    else none

/-- Python `float(text)` on a character list; `none` models `ValueError`. -/
def pyFloatOfChars : List Char → Option ℚ
  | [] => none
  | c :: cs =>
    if c = '-' then (parseUnsignedFloat cs).map Neg.neg
    else if c = '+' then parseUnsignedFloat cs
    else parseUnsignedFloat (c :: cs)

/-- Python `float(text)` on a string. -/
def pyFloatOfString (s : String) : Option ℚ := pyFloatOfChars s.data

/-- Zero-padded six-digit block rendering the fractional part of `%f`. -/
def pad6 (k : Nat) : List Char :=
  List.replicate (6 - (natDigitChars k).length) '0' ++ natDigitChars k

/-- Fixed-point rendering of a scaled integer `m` as the decimal text of
`m / 10^6`, the shape produced by C `printf` with format `f`. -/
def formatScaled6 (m : Int) : String :=
  (if m < 0 then "-" else "") ++ pyStrOfNat (m.natAbs / 1000000)
    ++ "." ++ String.mk (pad6 (m.natAbs % 1000000))

/-- Python 2 percent-f formatting of a float, modelled on rationals: the
value is rounded to six fractional decimal digits.  (C rounds ties to
even, `round` rounds ties up; no claim depends on tie behaviour.) -/
def pyFormatF (q : ℚ) : String := formatScaled6 (round (q * 1000000))

/-- Python runtime values that appear as bredis field values. -/
inductive PyVal where
  | none
  | str (s : String)
  | int (n : Int)
  | bool (b : Bool)
  | float (q : ℚ)
  | datetime (epoch : Int)
  | date (epoch : Int)
  deriving DecidableEq

/-- Python exceptions raised by the embedded code paths. -/
inductive PyErr where
  | valueError
  | typeError
  | missingID
  | attributeError
  deriving DecidableEq

/-- Python truthiness of a field value. -/
def pyTruthy : PyVal → Bool
  | .none => false
  | .str s => s ≠ ""
  | .int n => n ≠ 0
  | .bool b => b
  | .float q => q ≠ 0
  | .datetime _ => true
  | .date _ => true

/-- Python `int(text)` with the `ValueError` made explicit. -/
def pyIntE (s : String) : Except PyErr Int :=
  match pyIntOfString s with
  | some n => .ok n
  | Option.none => .error .valueError

/-- The attribute classes of orm/attributes.py, by their type-specific
data.  `plain` is the base `Attribute` (text), `char` is `CharField`
with its `max_length`, `datetimeF`/`dateF` carry `auto_now` and
`auto_now_add`, and `counter` is `Counter`.  `ReferenceField` is not an
`Attribute` subclass and never enters a model's `_attributes` dict (only
its backing `<name>_id` text attribute does, as a plain `Attribute`), so
it needs no kind of its own. -/
inductive FieldKind where
  | plain
  | char (maxLength : Nat)
  | boolean
  | integer
  | float
  | datetimeF (autoNow autoNowAdd : Bool)
  | dateF (autoNow autoNowAdd : Bool)
  | counter
  deriving DecidableEq

/-- Dispatch of `typecast_for_read` over the attribute classes.  The base
`Attribute` returns the text unchanged (the utf-8 decode is modelled as
the identity).  `BooleanField` is `bool(int(value))`, `IntegerField` is
`int(value)`, `FloatField` is `float(value)`.  `DateTimeField` and
`DateField` run `fromtimestamp(int(value))` under
`except TypeError, ValueError:` — Python 2 parses that clause as
`except TypeError as ValueError`, so it catches only `TypeError`; a
string input can only raise `ValueError` from `int()`, which therefore
propagates. -/
def typecast_for_read : FieldKind → String → Except PyErr PyVal
  | .plain, s => .ok (.str s)
  | .char _, s => .ok (.str s)
  | .boolean, s => (pyIntE s).map fun n => .bool (n ≠ 0)
  | .integer, s => (pyIntE s).map fun n => .int n
  | .float, s =>
    match pyFloatOfString s with
    | some q => .ok (.float q)
    | Option.none => .error .valueError
  | .datetimeF _ _, s => (pyIntE s).map fun n => .datetime n
  | .dateF _ _, s => (pyIntE s).map fun n => .date n
  | .counter, s => (pyIntE s).map fun n => .int n

/-- Python `unicode(value)` for the values the base `Attribute` storage
cast can meet.  (The shortest-round-trip rendering of floats and the
textual rendering of datetime objects are not modelled; no claim reaches
a plain/char field holding such a value.) -/
def pyUnicode : PyVal → Except PyErr String
  | .none => .ok "None"
  | .str s => .ok s
  | .int n => .ok (pyStrOfInt n)
  | .bool b => .ok (if b then "True" else "False")
  | .float _ => .error .typeError
  | .datetime _ => .error .typeError
  | .date _ => .error .typeError

/-- Dispatch of `typecast_for_storage` over the attribute classes.
Base/`CharField`: `unicode(value)`.  `BooleanField`: `"1" if value else
"0"` (truthiness).  `IntegerField`/`Counter`: `"0"` for `None`, else
`unicode(value)`.  `FloatField`: `"0"` for `None`, else `"%f" % value`
(also accepts ints; anything else raises `TypeError` in C `printf`
argument conversion).  `DateTimeField`/`DateField` first check
`isinstance` and raise `TypeError` otherwise (a `datetime` is an
instance of `date`), then store `int(time.mktime(value.timetuple()))`,
i.e. the epoch second. -/
def typecast_for_storage : FieldKind → PyVal → Except PyErr String
  | .plain, v => pyUnicode v
  | .char _, v => pyUnicode v
  | .boolean, v => .ok (if pyTruthy v then "1" else "0")
  | .integer, v =>
    match v with
    | .none => .ok "0"
    | .int n => .ok (pyStrOfInt n)
    | .bool b => .ok (if b then "True" else "False")
    | .str s => .ok s
    | _ => .error .typeError
  | .counter, v =>
    match v with
    | .none => .ok "0"
    | .int n => .ok (pyStrOfInt n)
    | .bool b => .ok (if b then "True" else "False")
    | .str s => .ok s
    | _ => .error .typeError
  | .float, v =>
    match v with
    | .none => .ok "0"
    | .float q => .ok (pyFormatF q)
    | .int n => .ok (pyFormatF (n : ℚ))
    | _ => .error .typeError
  | .datetimeF _ _, v =>
    match v with
    | .datetime e => .ok (pyStrOfInt e)
    | _ => .error .typeError
  | .dateF _ _, v =>
    match v with
    | .date e => .ok (pyStrOfInt e)
    | .datetime e => .ok (pyStrOfInt e)
    | _ => .error .typeError

/-- The `isinstance(value, self.acceptable_types())` test of
`Attribute.validate`, per attribute class.  In Python `bool` is a
subclass of `int`, so booleans are acceptable to integer fields and
counters. -/
def acceptable : FieldKind → PyVal → Bool
  | .plain, .str _ => true
  | .char _, .str _ => true
  | .boolean, .bool _ => true
  | .integer, .int _ => true
  | .integer, .bool _ => true
  | .counter, .int _ => true
  | .counter, .bool _ => true
  | .float, .float _ => true
  | .datetimeF _ _, .datetime _ => true
  | .dateF _ _, .date _ => true
  | .dateF _ _, .datetime _ => true
  | _, _ => false

/-- The `not unicode(value).strip()` test of the required check in
`Attribute.validate`, for a value already known not to be `None`: only a
whitespace-only string strips to empty (numbers, booleans and datetime
objects render to nonempty text). -/
def strippedEmpty : PyVal → Bool
  | .str s => s.trim = ""
  | _ => false

/-- Python `len(value)` as used by `CharField.validate`; a non-string
raises `TypeError`. -/
def pyLen : PyVal → Except PyErr Nat
  | .str s => .ok s.length
  | _ => .error .typeError

/-- Lookup in an association list (the model for a Python dict or for
the per-instance attribute namespace). -/
def lookupAssoc {α : Type} : List (String × α) → String → Option α
  | [], _ => Option.none
  | (k, v) :: rest, key => if key = k then some v else lookupAssoc rest key

/-- Overwriting insert in an association list. -/
def insertAssoc {α : Type} : List (String × α) → String → α → List (String × α)
  | [], key, v => [(key, v)]
  | (k, w) :: rest, key, v =>
    if key = k then (k, v) :: rest else (k, w) :: insertAssoc rest key v

/-- Removal from an association list. -/
def removeAssoc {α : Type} : List (String × α) → String → List (String × α)
  | [], _ => []
  | (k, w) :: rest, key => if key = k then rest else (k, w) :: removeAssoc rest key

/-- An attribute descriptor: `Attribute.__init__` data plus the class
dispatch kind.  The optional custom validator returns a list of
`(field, reason)` pairs, as in the source. -/
structure Attr where
  name : String
  kind : FieldKind
  required : Bool
  default : PyVal
  validator : Option (String → PyVal → List (String × String))

/-- A record type: the schema assembled by the `ModelBase` metaclass.
`className` and `ancestors` model the Python class and its mro names
(each class lists itself first), `keyBase` is `_key`'s prefix (the
`Meta` key override or the class name), `attrs` models the
`_attributes` dict (`Counter` instances included — `Counter` is an
`Attribute` subclass), `counters` the `_counters` name list, and `hook`
the overridable `Model.validate` custom-validation method, which may
append `(field, reason)` pairs after field validation (it is given the
identity and the per-instance value namespace; the base implementation
contributes nothing). -/
structure Model where
  className : String
  ancestors : List String
  keyBase : String
  attrs : List Attr
  counters : List String
  hook : Option String → List (String × PyVal) → List (String × String)

/-- A record instance: its type, `_id` when assigned, and the
`_<name>` per-instance attribute namespace used as the field cache. -/
structure Instance where
  model : Model
  id? : Option String
  cache : List (String × PyVal)

/-- The Redis state visible to the embedded operations: hash-typed keys
and the integer keys touched by `INCR` (identity counters). -/
structure Store where
  hashes : List (String × List (String × String))
  ints : List (String × Int)

/-- Trace of Redis commands issued by an operation. -/
inductive StoreOp where
  | hget (key field : String)
  | hmget (key : String) (fields : List String)
  | del (key : String)
  | hmset (key : String) (h : List (String × String))
  | incr (key : String)
  | lockAcquire (key : String)
  | lockRelease (key : String)
  deriving DecidableEq

/-- Modelled from the spec: orm/key.py is absent from src/, so the `Key`
string class is taken from the spec's key scheme (sections 4.1 and 6):
segments joined by a colon, an instance key being
`<type-prefix>:<identity>`. -/
def keyOf (m : Model) (i : String) : String := m.keyBase ++ ":" ++ i

/-- `Model.key()` with no argument: reads the `id` property, which
raises `MissingID` on a new instance. -/
def modelKey (inst : Instance) : Except PyErr String :=
  match inst.id? with
  | Option.none => .error .missingID
  | some i => .ok (keyOf inst.model i)

/-- `hget` against the store model. -/
def hgetS (st : Store) (key field : String) : Option String :=
  match lookupAssoc st.hashes key with
  | Option.none => Option.none
  | some h => lookupAssoc h field

/-- Redis `INCR`: missing keys count as 0. -/
def storeIncr (st : Store) (key : String) : Int × Store :=
  let n := (match lookupAssoc st.ints key with
    | Option.none => 0
    | some v => v) + 1
  (n, ⟨st.hashes, insertAssoc st.ints key n⟩)

/-- The `pipeline.delete(key); pipeline.hmset(key, h)` pair of
`Model._write`: the old hash is dropped and replaced by `h` (the `hmset`
is skipped when `h` is empty, leaving the key deleted). -/
def storeReplaceHash (st : Store) (key : String) (h : List (String × String)) : Store :=
  if h = [] then ⟨removeAssoc st.hashes key, st.ints⟩
  else ⟨insertAssoc st.hashes key h, st.ints⟩

/-- Write to the `_<name>` slot: `Attribute.__set__`. -/
def setCache (inst : Instance) (n : String) (v : PyVal) : Instance :=
  ⟨inst.model, inst.id?, insertAssoc inst.cache n v⟩

/-- `Counter.__get__`: no per-instance cache and no use of the declared
default — a new instance or asynchronous mode reads 0; otherwise the
store value is fetched (0 when absent, `int(value)` otherwise) on every
read, and nothing is cached. -/
def counter_get (a : Attr) (inst : Instance) (st : Store) (isAsync : Bool) :
    Except PyErr (PyVal × Instance × List StoreOp) :=
  match inst.id?, isAsync with
  | some i, false =>
    match hgetS st (keyOf inst.model i) a.name with
    | Option.none => .ok (.int 0, inst, [.hget (keyOf inst.model i) a.name])
    | some s => (pyIntE s).map fun n => (.int n, inst, [.hget (keyOf inst.model i) a.name])
  | some _, true => .ok (.int 0, inst, [])
  | Option.none, _ => .ok (.int 0, inst, [])

/-- `Attribute.__get__`: the cached `_<name>` slot if present; otherwise
the declared default (cached, without store access) when the instance is
new or the process is in asynchronous mode, else a lazy `hget` whose
non-`None` result goes through `typecast_for_read`, cached either way.
The returned trace records the store reads issued. -/
def attribute_get (a : Attr) (inst : Instance) (st : Store) (isAsync : Bool) :
    Except PyErr (PyVal × Instance × List StoreOp) :=
  match lookupAssoc inst.cache a.name with
  | some v => .ok (v, inst, [])
  | Option.none =>
    match inst.id?, isAsync with
    | some i, false =>
      match hgetS st (keyOf inst.model i) a.name with
      | Option.none => .ok (.none, setCache inst a.name .none, [.hget (keyOf inst.model i) a.name])
      | some s =>
        (typecast_for_read a.kind s).map fun v =>
          (v, setCache inst a.name v, [.hget (keyOf inst.model i) a.name])
    | some _, true => .ok (a.default, setCache inst a.name a.default, [])
    | Option.none, _ => .ok (a.default, setCache inst a.name a.default, [])

/-- Attribute read, `getattr(instance, name)` through the descriptors:
`Counter.__get__` for counter fields, `Attribute.__get__` otherwise. -/
def attrGet (a : Attr) (inst : Instance) (st : Store) (isAsync : Bool) :
    Except PyErr (PyVal × Instance × List StoreOp) :=
  match a.kind with
  | .counter => counter_get a inst st isAsync
  | _ => attribute_get a inst st isAsync

/-- Attribute write through the descriptors: `Counter.__set__` raises
`AttributeError("can't set a counter.")`, `Attribute.__set__` stores the
value in the `_<name>` slot. -/
def attrSet (a : Attr) (inst : Instance) (v : PyVal) : Except PyErr Instance :=
  match a.kind with
  | .counter => .error .attributeError
  | _ => .ok (setCache inst a.name v)

/-- Field validation: `Attribute.validate` (type acceptability, the
required check, the custom validator) plus the `CharField.validate`
max-length check, in the order the collected error list observes them.
The value is obtained with `getattr`, which may lazily read the store. -/
def char_length_errors (a : Attr) (value : PyVal) : Except PyErr (List (String × String)) :=
  match a.kind with
  | .char ml =>
    if pyTruthy value then do
      let l ← pyLen value
      .ok (if ml < l then [(a.name, "exceeds max length")] else [])
    else .ok []
  | _ => .ok []

def attrValidate (a : Attr) (inst : Instance) (st : Store) (isAsync : Bool) :
    Except PyErr (List (String × String) × Instance × List StoreOp) := do
  let r ← attrGet a inst st isAsync
  let value := r.1
  let e1 := if pyTruthy value ∧ ¬acceptable a.kind value then [(a.name, "bad type")] else []
  let e2 := if a.required ∧ (value = PyVal.none ∨ strippedEmpty value) then
    [(a.name, "required")] else []
  let e3 := match a.validator with
    | some f => f a.name value
    | Option.none => []
  let e4 ← char_length_errors a value
  .ok (e1 ++ e2 ++ e3 ++ e4, r.2.1, r.2.2)

/-- The field loop of `Model.is_valid`, collecting every field's errors
(not fail-fast) while threading the instance cache and the store trace. -/
def validateFields (attrs : List Attr) (inst : Instance) (st : Store) (isAsync : Bool) :
    Except PyErr (List (String × String) × Instance × List StoreOp) :=
  match attrs with
  | [] => .ok ([], inst, [])
  | a :: rest => do
    let r ← attrValidate a inst st isAsync
    let rr ← validateFields rest r.2.1 st isAsync
    .ok (r.1 ++ rr.1, rr.2.1, r.2.2 ++ rr.2.2)

/-- `Model.is_valid`: every field's errors followed by whatever the
overridable custom `validate` hook appends. -/
def is_valid (inst : Instance) (st : Store) (isAsync : Bool) :
    Except PyErr (List (String × String) × Instance × List StoreOp) := do
  let r ← validateFields inst.model.attrs inst st isAsync
  .ok (r.1 ++ inst.model.hook r.2.1.id? r.2.1.cache, r.2.1, r.2.2)

/-- The `auto_now`/`auto_now_add` refresh performed by `Model._write`
and `Model._get_data_for_storage` before reading a date/datetime field:
both assign `datetime.now()` (also for `DateField`, as in the source;
`DateField`'s storage cast accepts it since `datetime` is a `date`). -/
def applyAutoNow (a : Attr) (inst : Instance) (isNew : Bool) (now : Int) : Instance :=
  match a.kind with
  | .datetimeF an ana =>
    let i1 := if an then setCache inst a.name (.datetime now) else inst
    if ana && isNew then setCache i1 a.name (.datetime now) else i1
  | .dateF an ana =>
    let i1 := if an then setCache inst a.name (.datetime now) else inst
    if ana && isNew then setCache i1 a.name (.datetime now) else i1
  | _ => inst

/-- The attribute loop shared by `Model._write` and
`Model._get_data_for_storage`: apply the auto-now rules, read the value
with `getattr`, and when it is not `None` add
`typecast_for_storage(value)` under the field name.  (The
`isinstance(v, ReferenceField)` branch of `_get_data_for_storage` is
dead code: the `_attributes` dict never holds a `ReferenceField`.)
`isAsync` is false under the synchronous `_write` and true under
`save_async`, where the process-wide mode flag makes `getattr` return
defaults without store access. -/
def writeEntries (attrs : List Attr) (inst : Instance) (st : Store) (isAsync isNew : Bool)
    (now : Int) : Except PyErr (List (String × String) × Instance × List StoreOp) :=
  match attrs with
  | [] => .ok ([], inst, [])
  | a :: rest => do
    let i1 := applyAutoNow a inst isNew now
    let r ← attrGet a i1 st isAsync
    let rr ← writeEntries rest r.2.1 st isAsync isNew now
    if r.1 = PyVal.none then .ok (rr.1, rr.2.1, r.2.2 ++ rr.2.2)
    else do
      let s ← typecast_for_storage a.kind r.1
      .ok ((a.name, s) :: rr.1, rr.2.1, r.2.2 ++ rr.2.2)

/-- `Model._write`: build the storage hash, then pipeline a delete of
the instance key followed by an `hmset` of the hash (when nonempty). -/
def model_write (inst : Instance) (st : Store) (isNew : Bool) (now : Int) :
    Except PyErr (Instance × Store × List StoreOp) := do
  match inst.id? with
  | Option.none => .error .missingID
  | some i => do
    let key := keyOf inst.model i
    let r ← writeEntries inst.model.attrs inst st false isNew now
    let ops := r.2.2 ++ [.del key] ++ (if r.1 = [] then [] else [.hmset key r.1])
    .ok (r.2.1, storeReplaceHash st key r.1, ops)

/-- `Model._get_data_for_storage`: the hash built for the asynchronous
save path (executed with the process in asynchronous mode). -/
def get_data_for_storage (inst : Instance) (st : Store) (isNew : Bool) (now : Int) :
    Except PyErr (List (String × String) × Instance × List StoreOp) :=
  writeEntries inst.model.attrs inst st true isNew now

/-- Result of `Model.save`: the collected validation errors, or `True`. -/
inductive SaveResult where
  | validationErrors (errs : List (String × String))
  | success

/-- `Model.save` (synchronous): validate; on any error return the error
list with no further store activity; otherwise allocate an identity via
`INCR <prefix>:id` when the instance is new, and run `_write` under the
per-record mutex (the lock protocol's own store traffic is abstracted to
acquire/release markers here; its internal steps are modelled by
`lockIter`). -/
def save (inst : Instance) (st : Store) (now : Int) :
    Except PyErr (SaveResult × Instance × Store × List StoreOp) := do
  let v ← is_valid inst st false
  if v.1 ≠ [] then
    .ok (.validationErrors v.1, v.2.1, st, v.2.2)
  else
    let i1 := v.2.1
    let isNew := i1.id?.isNone
    let idKey := i1.model.keyBase ++ ":id"
    let p :=
      if isNew then
        let r := storeIncr st idKey
        ((⟨i1.model, some (pyStrOfInt r.1), i1.cache⟩ : Instance), r.2, [StoreOp.incr idKey])
      else (i1, st, ([] : List StoreOp))
    let i2 := p.1
    let w ← model_write i2 p.2.1 isNew now
    match i2.id? with
    | Option.none => .error .missingID
    | some i =>
      let lockKey := keyOf i2.model i ++ ":_lock"
      .ok (.success, w.1, w.2.1,
        v.2.2 ++ p.2.2 ++ [.lockAcquire lockKey] ++ w.2.2 ++ [.lockRelease lockKey])

/-- `Model.incr` (and `decr`, which delegates with a negated amount):
raises `ValueError` unless the field is declared a counter, otherwise a
single `HINCRBY` against the record's hash. -/
def model_incr (inst : Instance) (st : Store) (att : String) (val : Int) :
    Except PyErr (Store × List StoreOp) := do
  if att ∈ inst.model.counters then
    match inst.id? with
    | Option.none => .error .missingID
    | some i =>
      let key := keyOf inst.model i
      let old :=
        match hgetS st key att with
        | Option.none => 0
        | some s =>
          match pyIntOfString s with
          | some n => n
          | Option.none => 0
      let h :=
        match lookupAssoc st.hashes key with
        | Option.none => []
        | some hh => hh
      .ok (⟨insertAssoc st.hashes key (insertAssoc h att (pyStrOfInt (old + val))), st.ints⟩,
        [.hget key att])
  else .error .valueError

/-- `util.deserialize(value, ignore_error=True)` as used by
`object_dict`: a JSON parse whose scalars are modelled as integers (the
only shape the claims exercise); any text that is not such a scalar is
returned unchanged, since parse errors are swallowed under
`ignore_error`. -/
def pyDeserialize (s : String) : PyVal :=
  match pyIntOfString s with
  | some n => .int n
  | Option.none => .str s

/-- The field-assignment loop of `Model.typecast_for_read` (hydration):
each field present in the fetched mapping is assigned through
`__set__` — directly for `None` (tuples/lists/dicts are not modelled),
otherwise through the field's read cast.  Assigning a counter raises
`AttributeError` (`Counter.__set__`). -/
def hydrateFields (attrs : List Attr) (inst : Instance) (d : List (String × Option String)) :
    Except PyErr Instance :=
  match attrs with
  | [] => .ok inst
  | a :: rest => do
    match lookupAssoc d a.name with
    | Option.none => hydrateFields rest inst d
    | some Option.none => do
      let i1 ← attrSet a inst .none
      hydrateFields rest i1 d
    | some (some s) => do
      let v ← typecast_for_read a.kind s
      let i1 ← attrSet a inst v
      hydrateFields rest i1 d

/-- `Model.typecast_for_read`: hydrate each present field, then adopt an
`id` entry when the mapping carries one. -/
def model_typecast_for_read (inst : Instance) (d : List (String × Option String)) :
    Except PyErr Instance := do
  let i1 ← hydrateFields inst.model.attrs inst d
  match lookupAssoc d "id" with
  | some (some s) => .ok ⟨i1.model, some s, i1.cache⟩
  | _ => .ok i1

/-- `Model.object_dict`: read every attribute with `getattr` (these
paths run in asynchronous mode, so no store access occurs), passing
string values through `deserialize(..., ignore_error=True)`, then append
the `id` property — which raises `MissingID` on a new instance. -/
def objectDictFields (attrs : List Attr) (inst : Instance) (st : Store) :
    Except PyErr (List (String × PyVal) × Instance) :=
  match attrs with
  | [] => .ok ([], inst)
  | a :: rest => do
    let r ← attrGet a inst st true
    let rr ← objectDictFields rest r.2.1 st
    let entry :=
      match r.1 with
      | .str s => pyDeserialize s
      | v => v
    .ok ((a.name, entry) :: rr.1, rr.2)

/-- `Model.object_dict` (see `objectDictFields`). -/
def object_dict (inst : Instance) (st : Store) :
    Except PyErr (List (String × PyVal) × Instance) := do
  let r ← objectDictFields inst.model.attrs inst st
  match r.2.id? with
  | Option.none => .error .missingID
  | some i => .ok (r.1 ++ [("id", .str i)], r.2)

/-- A result delivered to a manager callback by tornadoredis: either the
operation's value or an `Exception` instance (carrying its message). -/
inductive AsyncRes (α : Type) where
  | exn (msg : String)
  | val (a : α)

/-- A pipelined multi-command result, which `get_by_ids_async`
additionally checks with `isinstance(res, list)`. -/
inductive AsyncResL (α : Type) where
  | exn (msg : String)
  | list (rs : List α)
  | notList

/-- The `on_response` handler of `Manager.get_by_id_async`: an exception
result is logged and the callback receives `None`; a hash whose values
are all empty/`None` also yields `None`; otherwise the hydrated object.
The first component collects the `logging.error` messages. -/
def get_by_id_on_response (m : Model) (i : String)
    (res : AsyncRes (List (String × Option String))) :
    Except PyErr (List String × Option Instance) :=
  match res with
  | .exn e => .ok ([e], Option.none)
  | .val d =>
    if d.any fun kv =>
        match kv.2 with
        | some s => decide (s ≠ "")
        | Option.none => false then do
      let inst ← model_typecast_for_read ⟨m, some i, []⟩ d
      .ok ([], some inst)
    else .ok ([], Option.none)

/-- The request side of `Manager.get_by_ids_async`: one pipelined
`HMGET key fields` per identity, in input order. -/
def get_by_ids_requests (m : Model) (ids : List String) : List StoreOp :=
  ids.map fun i => .hmget (keyOf m i) (m.attrs.map fun a => a.name)

/-- The zip/hydrate/filter loop of `Manager.get_by_ids_async`'s
`on_response`: for each `(id, d)` pair a fresh instance is given the
identity, hydrated via `typecast_for_read`, converted with
`object_dict`, and appended when `any(od.values())` holds. -/
def get_by_ids_collect (m : Model) (st : Store) :
    List (String × List (String × Option String)) →
    Except PyErr (List (List (String × PyVal)))
  | [] => .ok []
  | (i, d) :: rest => do
    let inst ← model_typecast_for_read ⟨m, some i, []⟩ d
    let od ← object_dict inst st
    let tail ← get_by_ids_collect m st rest
    if od.1.any fun kv => pyTruthy kv.2 then
      .ok (od.1 :: tail)
    else .ok tail

/-- The `on_response` handler of `Manager.get_by_ids_async`: exceptions
and non-list results are logged and the callback receives `[]`;
otherwise the ids are zipped with the per-id results and the
hydrate/filter loop runs. -/
def get_by_ids_on_response (m : Model) (st : Store) (ids : List String)
    (res : AsyncResL (List (String × Option String))) :
    Except PyErr (List String × List (List (String × PyVal))) :=
  match res with
  | .exn e => .ok ([e], [])
  | .notList => .ok (["wrong type of res"], [])
  | .list rs => do
    let out ← get_by_ids_collect m st (ids.zip rs)
    .ok ([], out)

/-- The `on_response` handler shared textually by
`Manager.get_sort_list_async` and `Manager.get_set_async`: exceptions
are logged and become `[]`, any other result is passed through. -/
def get_sort_list_on_response (res : AsyncRes (List String)) : List String × List String :=
  match res with
  | .exn e => ([e], [])
  | .val r => ([], r)

/-- The `on_response` handler of `Manager.get_set_async`. -/
def get_set_on_response (res : AsyncRes (List String)) : List String × List String :=
  match res with
  | .exn e => ([e], [])
  | .val r => ([], r)

/-- The `on_response` handler of `Manager.get_sets_async`: exceptions
are logged and become `[]`; otherwise each member set is listified. -/
def get_sets_on_response (res : AsyncRes (List (List String))) :
    List String × List (List String) :=
  match res with
  | .exn e => ([e], [])
  | .val rs => ([], rs.map fun r => r)

/-- Outcome of one iteration of the `Mutex.lock` spin loop. -/
inductive LockOutcome where
  | acquired
  | retryNow
  | sleepRetry (dur : ℚ)
  | loopRetry
  deriving DecidableEq

/-- `Mutex.lock_has_expired`: the stored expiry timestamp is strictly in
the past. -/
def lock_has_expired (lock now : ℚ) : Bool := lock < now

/-- One iteration of the `Mutex.lock` while-loop, parameterised by the
lock-key value observed at each of its three store commands (`SETNX`,
`GET`, `GETSET`) — other processes may change the key between them —
and the current time.  The first component is the control outcome
(acquired, retry immediately, sleep 0.5 then retry, or loop again after
a lost `GETSET` race); the second is the value this iteration wrote to
the lock key (`SETNX` and `GETSET` both write `now + 1.0`, the
`lock_timeout`), if any. -/
def lockIter (atSetnx atGet atGetset : Option ℚ) (now : ℚ) : LockOutcome × Option ℚ :=
  match atSetnx with
  | Option.none => (.acquired, some (now + 1))
  | some _ =>
    match atGet with
    | Option.none => (.retryNow, Option.none)
    | some v =>
      if lock_has_expired v now then
        match atGetset with
        | Option.none => (.acquired, some (now + 1))
        | some w =>
          if lock_has_expired w now then (.acquired, some (now + 1))
          else (.loopRetry, some (now + 1))
      else (.sleepRetry (1 / 2), Option.none)

/-- `Mutex.unlock`: an unconditional delete of the lock key. -/
def unlock (lockVal : Option ℚ) : Option ℚ :=
  match lockVal with
  | _ => Option.none

/-- Model of Python 2 `hash(text)`: a fixed deterministic function of
the string (the concrete mixing constants are irrelevant; every claim
only uses that equal keys hash equally). -/
def pyHashStr (s : String) : Nat :=
  s.data.foldl (fun h c => h * 31 + c.toNat) 7

/-- `Model.__eq__`: `isinstance(other, self.__class__)` — true when
`self`'s class appears in `other`'s mro — and then key equality; the
`isinstance` failure short-circuits before any `key()` call, so only the
second conjunct can raise `MissingID`. -/
def model_eq (self other : Instance) : Except PyErr Bool :=
  if self.model.className ∈ other.model.ancestors then do
    let k1 ← modelKey self
    let k2 ← modelKey other
    .ok (k1 == k2)
  else .ok false

/-- `Model.__hash__`: `hash(self.key())`. -/
def model_hash (self : Instance) : Except PyErr Nat :=
  (modelKey self).map pyHashStr

/-- The value `getattr(self, k)` yields for field `a` inside the
`_write`/`_get_data_for_storage` loop, after the auto-now refresh: the
"value at write time" the omission claims quantify over. -/
def writeTimeValue (a : Attr) (inst : Instance) (st : Store) (isAsync isNew : Bool)
    (now : Int) : Except PyErr PyVal :=
  (attrGet a (applyAutoNow a inst isNew now) st isAsync).map fun r => r.1

/-- The base `Model.validate` hook: contributes no errors. -/
def noHook : Option String → List (String × PyVal) → List (String × String) := fun _ _ => []

/-- An empty store. -/
def emptyStore : Store := ⟨[], []⟩

/-- Fixture: a text attribute `name` (no constraints). -/
def gameNameAttr : Attr := ⟨"name", .plain, false, .none, Option.none⟩

/-- Fixture: a `Counter` field `hits` (its `__init__` default of 0). -/
def gameHitsAttr : Attr := ⟨"hits", .counter, false, .int 0, Option.none⟩

/-- Fixture: a record type with a text field and a counter. -/
def gameModel : Model :=
  ⟨"Game", ["Game", "Model"], "Game", [gameNameAttr, gameHitsAttr], ["hits"], noHook⟩

/-- Fixture: a saved `Game` instance whose `name` is set in memory. -/
def gameInst : Instance := ⟨gameModel, some "1", [("name", .str "ok")]⟩

/-- Fixture: store holding `hits = 7` for `Game:1`. -/
def gameStore : Store := ⟨[("Game:1", [("hits", "7")])], []⟩

/-- Fixture: a `Counter` declared with an explicit default of 5
(`Counter(default=5)` keeps a non-`None` explicit default). -/
def hitsAttr5 : Attr := ⟨"hits", .counter, false, .int 5, Option.none⟩

/-- Fixture: record type carrying the default-5 counter. -/
def gameModel5 : Model := ⟨"Game5", ["Game5", "Model"], "Game5", [hitsAttr5], ["hits"], noHook⟩

/-- Fixture: a new (unsaved) instance of the default-5 counter type. -/
def newGame5 : Instance := ⟨gameModel5, Option.none, []⟩

/-- Fixture: a required text attribute with the default default (None). -/
def reqNameAttr : Attr := ⟨"name", .plain, true, .none, Option.none⟩

/-- Fixture: a record type with one required text field. -/
def reqModel : Model := ⟨"Person", ["Person", "Model"], "Person", [reqNameAttr], [], noHook⟩

/-- Fixture: a new `Person` with its required field left absent. -/
def reqInst : Instance := ⟨reqModel, Option.none, []⟩

/-- Fixture: text attribute `note`. -/
def hydNoteAttr : Attr := ⟨"note", .plain, false, .none, Option.none⟩

/-- Fixture: a two-text-field record type for the batch-read scenario. -/
def hydModel : Model :=
  ⟨"Doc", ["Doc", "Model"], "Doc", [gameNameAttr, hydNoteAttr], [], noHook⟩

/-- Fixture: a base record type `Parent`. -/
def parentModel : Model := ⟨"Parent", ["Parent", "Model"], "Parent", [], [], noHook⟩

/-- Fixture: a subtype of `Parent` whose `Meta` key overrides the key
prefix back to `Parent`. -/
def childModel : Model := ⟨"Child", ["Child", "Parent", "Model"], "Parent", [], [], noHook⟩

/-- Fixture: a saved `Parent` with identity 1. -/
def instP : Instance := ⟨parentModel, some "1", []⟩

/-- Fixture: a saved `Child` with identity 1. -/
def instC : Instance := ⟨childModel, some "1", []⟩

/-! ### Lemmas: decimal rendering and parsing round-trips -/

theorem charDigitVal_digitChar (d : Nat) (h : d < 10) : charDigitVal (digitChar d) = d := by
  interval_cases d <;> decide

theorem isDigit_digitChar (d : Nat) (h : d < 10) : (digitChar d).isDigit = true := by
  interval_cases d <;> decide

theorem digitsToNat_append (l : List Char) (c : Char) :
    digitsToNat (l ++ [c]) = digitsToNat l * 10 + charDigitVal c := by
  simp [digitsToNat, List.foldl_append]

theorem natDigitCharsAux_spec (fuel : Nat) : ∀ n, n ≤ fuel →
    allDigits (natDigitCharsAux fuel n) = true ∧
    digitsToNat (natDigitCharsAux fuel n) = n := by
  induction fuel with
  | zero => intro n hn; interval_cases n; simp [natDigitCharsAux, allDigits, digitsToNat]
  | succ f ih =>
    intro n hn
    by_cases h0 : n = 0
    · subst h0; simp [natDigitCharsAux, allDigits, digitsToNat]
    · have hdiv : n / 10 ≤ f := by
        have : n / 10 < n := Nat.div_lt_self (Nat.pos_of_ne_zero h0) (by norm_num)
        omega
      obtain ⟨ha, hv⟩ := ih (n / 10) hdiv
      constructor
      · simp only [natDigitCharsAux, if_neg h0]
        simp [allDigits] at ha ⊢
        exact ⟨ha, isDigit_digitChar _ (Nat.mod_lt _ (by norm_num))⟩
      · simp only [natDigitCharsAux, if_neg h0]
        rw [digitsToNat_append, hv, charDigitVal_digitChar _ (Nat.mod_lt _ (by norm_num))]
        omega

theorem natDigitChars_allDigits (n : Nat) : allDigits (natDigitChars n) = true :=
  (natDigitCharsAux_spec n n le_rfl).1

theorem digitsToNat_natDigitChars (n : Nat) : digitsToNat (natDigitChars n) = n :=
  (natDigitCharsAux_spec n n le_rfl).2

theorem natDigitChars_ne_nil (n : Nat) (h : n ≠ 0) : natDigitChars n ≠ [] := by
  cases n with
  | zero => exact absurd rfl h
  | succ m =>
    show natDigitCharsAux (m + 1) (m + 1) ≠ []
    simp [natDigitCharsAux]

theorem natDigitCharsAux_length (fuel : Nat) : ∀ n j, n ≤ fuel → n < 10 ^ j →
    (natDigitCharsAux fuel n).length ≤ j := by
  induction fuel with
  | zero => intro n j hn _; interval_cases n; simp [natDigitCharsAux]
  | succ f ih =>
    intro n j hn hj
    by_cases h0 : n = 0
    · subst h0; simp [natDigitCharsAux]
    · have hjpos : j ≠ 0 := by
        rintro rfl; simp at hj; omega
      have hdiv : n / 10 ≤ f := by
        have : n / 10 < n := Nat.div_lt_self (Nat.pos_of_ne_zero h0) (by norm_num)
        omega
      have hlt : n / 10 < 10 ^ (j - 1) := by
        rw [Nat.div_lt_iff_lt_mul (by norm_num)]
        calc n < 10 ^ j := hj
        _ = 10 ^ (j - 1) * 10 := by
            rw [← pow_succ]; congr 1; omega
      have := ih (n / 10) (j - 1) hdiv hlt
      simp only [natDigitCharsAux, if_neg h0, List.length_append, List.length_singleton]
      omega

theorem pyStrOfNat_data (n : Nat) :
    (pyStrOfNat n).data = if n = 0 then ['0'] else natDigitChars n := by
  by_cases h : n = 0 <;> simp [pyStrOfNat, h]

theorem pyStrOfNat_spec (n : Nat) :
    (pyStrOfNat n).data ≠ [] ∧ allDigits (pyStrOfNat n).data = true ∧
    digitsToNat (pyStrOfNat n).data = n := by
  rw [pyStrOfNat_data]
  by_cases h : n = 0
  · subst h; simp [allDigits, digitsToNat, charDigitVal]
  · simp only [if_neg h]
    exact ⟨natDigitChars_ne_nil n h, natDigitChars_allDigits n, digitsToNat_natDigitChars n⟩

theorem parseNatDigits_pyStrOfNat (n : Nat) :
    parseNatDigits (pyStrOfNat n).data = some n := by
  obtain ⟨h1, h2, h3⟩ := pyStrOfNat_spec n
  rw [parseNatDigits, if_pos ⟨h1, h2⟩, h3]

theorem allDigits_head_not_sign (c : Char) (cs : List Char)
    (h : allDigits (c :: cs) = true) : c ≠ '-' ∧ c ≠ '+' ∧ c ≠ '.' := by
  simp [allDigits] at h
  obtain ⟨hc, -⟩ := h
  refine ⟨?_, ?_, ?_⟩ <;> rintro rfl <;> simp [Char.isDigit] at hc

theorem pyIntOfString_pyStrOfInt (n : Int) : pyIntOfString (pyStrOfInt n) = some n := by
  cases n with
  | ofNat m =>
    obtain ⟨h1, h2, h3⟩ := pyStrOfNat_spec m
    show pyIntOfChars (pyStrOfNat m).data = some m
    obtain ⟨c, cs, hd⟩ : ∃ c cs, (pyStrOfNat m).data = c :: cs := by
      cases hcs : (pyStrOfNat m).data with
      | nil => exact absurd hcs h1
      | cons c cs => exact ⟨c, cs, rfl⟩
    obtain ⟨hm, hp, -⟩ := allDigits_head_not_sign c cs (hd ▸ h2)
    rw [hd, pyIntOfChars, if_neg hm, if_neg hp, ← hd, parseNatDigits_pyStrOfNat]
    rfl
  | negSucc m =>
    show pyIntOfChars ("-" ++ pyStrOfNat (m + 1)).data = some (Int.negSucc m)
    have hdata : ("-" ++ pyStrOfNat (m + 1)).data = '-' :: (pyStrOfNat (m + 1)).data := by
      simp [String.data_append]
    rw [hdata, pyIntOfChars, if_pos rfl, parseNatDigits_pyStrOfNat]
    simp [Int.negSucc_eq]

theorem splitDot_append (l r : List Char) (h : ∀ c ∈ l, c ≠ '.') :
    splitDot (l ++ '.' :: r) = (l, some r) := by
  induction l with
  | nil => simp [splitDot]
  | cons c cs ih =>
    have hc : c ≠ '.' := h c (by simp)
    have := ih fun x hx => h x (by simp [hx])
    simp [splitDot, if_neg hc, this]

theorem allDigits_no_dot (l : List Char) (h : allDigits l = true) : ∀ c ∈ l, c ≠ '.' := by
  intro c hc
  simp [allDigits, List.all_eq_true] at h
  have := h c hc
  rintro rfl; simp [Char.isDigit] at this

theorem digitsToNat_replicate_zero (z : Nat) (l : List Char) :
    digitsToNat (List.replicate z '0' ++ l) = digitsToNat l := by
  have hz : digitsToNat (List.replicate z '0') = 0 := by
    induction z with
    | zero => rfl
    | succ k ih =>
      rw [List.replicate_succ]
      show List.foldl _ _ _ = 0
      simpa [digitsToNat, charDigitVal] using ih
  simp only [digitsToNat, List.foldl_append] at hz ⊢
  rw [show List.foldl (fun a c => a * 10 + charDigitVal c) 0 (List.replicate z '0') = 0 from hz]

theorem pad6_spec (b : Nat) (hb : b < 10 ^ 6) :
    allDigits (pad6 b) = true ∧ (pad6 b).length = 6 ∧ digitsToNat (pad6 b) = b := by
  have hlen : (natDigitChars b).length ≤ 6 := natDigitCharsAux_length b b 6 le_rfl hb
  refine ⟨?_, ?_, ?_⟩
  · have h1 := natDigitChars_allDigits b
    simp only [pad6, allDigits, List.all_append, Bool.and_eq_true] at h1 ⊢
    constructor
    · simp only [List.all_eq_true]
      intro c hc
      rw [List.eq_of_mem_replicate hc]
      decide
    · exact h1
  · simp only [pad6, List.length_append, List.length_replicate]
    omega
  · rw [pad6, digitsToNat_replicate_zero, digitsToNat_natDigitChars]

theorem parseUnsignedFloat_format (a b : Nat) (hb : b < 10 ^ 6) :
    parseUnsignedFloat ((pyStrOfNat a).data ++ '.' :: pad6 b) =
      some ((a : ℚ) + (b : ℚ) / 10 ^ 6) := by
  obtain ⟨h1, h2, h3⟩ := pyStrOfNat_spec a
  obtain ⟨p1, p2, p3⟩ := pad6_spec b hb
  rw [parseUnsignedFloat]
  rw [splitDot_append _ _ (allDigits_no_dot _ h2)]
  simp only
  rw [if_pos ⟨Or.inl h1, h2, p1⟩, h3, p3, p2]

theorem pyFloatOfChars_formatScaled6 (m : Int) :
    pyFloatOfChars (formatScaled6 m).data = some ((m : ℚ) / 10 ^ 6) := by
  have hmod : m.natAbs % 1000000 < 10 ^ 6 := Nat.mod_lt _ (by norm_num)
  have key := parseUnsignedFloat_format (m.natAbs / 1000000) (m.natAbs % 1000000) hmod
  have hdm : 1000000 * (m.natAbs / 1000000) + m.natAbs % 1000000 = m.natAbs :=
    Nat.div_add_mod m.natAbs 1000000
  have hq : ((m.natAbs : ℚ)) =
      1000000 * ((m.natAbs / 1000000 : Nat) : ℚ) + ((m.natAbs % 1000000 : Nat) : ℚ) := by
    exact_mod_cast (congrArg (fun k : Nat => (k : ℚ)) hdm).symm
  have habs : ((m.natAbs / 1000000 : Nat) : ℚ) + ((m.natAbs % 1000000 : Nat) : ℚ) / 10 ^ 6 =
      (m.natAbs : ℚ) / 10 ^ 6 := by
    rw [hq]
    have h6 : ((10 : ℚ) ^ 6) = 1000000 := by norm_num
    rw [h6]
    field_simp
    ring
  by_cases hm : m < 0
  · have hdata : (formatScaled6 m).data =
        '-' :: ((pyStrOfNat (m.natAbs / 1000000)).data ++ '.' :: pad6 (m.natAbs % 1000000)) := by
      simp [formatScaled6, if_pos hm, String.data_append]
    rw [hdata, pyFloatOfChars, if_pos rfl, key]
    show some _ = some _
    congr 1
    rw [habs]
    have h2 : (m.natAbs : ℚ) = -(m : ℚ) := by
      rw [Int.cast_natAbs, abs_of_neg hm]
      push_cast
      ring
    rw [h2]; ring
  · have hdata : (formatScaled6 m).data =
        (pyStrOfNat (m.natAbs / 1000000)).data ++ '.' :: pad6 (m.natAbs % 1000000) := by
      simp [formatScaled6, if_neg hm, String.data_append]
    obtain ⟨hne, hdig, -⟩ := pyStrOfNat_spec (m.natAbs / 1000000)
    obtain ⟨c, cs, hd⟩ : ∃ c cs, (pyStrOfNat (m.natAbs / 1000000)).data = c :: cs := by
      cases hcs : (pyStrOfNat (m.natAbs / 1000000)).data with
      | nil => exact absurd hcs hne
      | cons c cs => exact ⟨c, cs, rfl⟩
    obtain ⟨hneg, hplus, -⟩ := allDigits_head_not_sign c cs (hd ▸ hdig)
    rw [hdata, hd, List.cons_append, pyFloatOfChars, if_neg hneg, if_neg hplus,
      ← List.cons_append, ← hd, key, habs]
    congr 1
    have h2 : (m.natAbs : ℚ) = (m : ℚ) := by
      rw [Int.cast_natAbs, abs_of_nonneg (not_lt.mp hm)]
    rw [h2]

theorem pyFloatOfString_pyFormatF (q : ℚ) :
    pyFloatOfString (pyFormatF q) = some ((round (q * 1000000) : ℚ) / 10 ^ 6) := by
  rw [pyFormatF, pyFloatOfString, pyFloatOfChars_formatScaled6]


/-- Claim C2 (code bug): the date and datetime read-casts are claimed never
to raise, with malformed input yielding an absent value; in the code the
Python 2 clause `except TypeError, ValueError:` catches only `TypeError`,
so the text "abc", which makes `int()` raise `ValueError`, propagates the
exception instead of returning `None`. -/
theorem dt_read_raises :
    typecast_for_read (.datetimeF false false) "abc" = .error .valueError ∧
    typecast_for_read (.dateF false false) "abc" = .error .valueError := ⟨rfl, rfl⟩

/-- Claim C8: every asynchronous batch operation's response handler
(`get_by_id_async`, `get_by_ids_async`, `get_sort_list_async`,
`get_set_async`, `get_sets_async`), when the store result is an
`Exception`, logs the error and invokes the callback with an absent value
or empty collection; the handlers are total functions here, so no store
error is ever re-raised into application code. -/
theorem async_err : ∀ (e : String) (m : Model) (i : String) (st : Store) (ids : List String),
    get_by_id_on_response m i (.exn e) = .ok ([e], Option.none) ∧
    get_by_ids_on_response m st ids (.exn e) = .ok ([e], []) ∧
    get_sort_list_on_response (.exn e) = ([e], []) ∧
    get_set_on_response (.exn e) = ([e], []) ∧
    get_sets_on_response (.exn e) = ([e], []) := by
  intro e m i st ids
  exact ⟨rfl, rfl, rfl, rfl, rfl⟩

theorem rt_bool (b : Bool) :
    (typecast_for_storage .boolean (.bool b)).bind (typecast_for_read .boolean) =
      .ok (.bool b) := by
  cases b <;> rfl

theorem rt_int (n : Int) :
    (typecast_for_storage .integer (.int n)).bind (typecast_for_read .integer) =
      .ok (.int n) := by
  show (typecast_for_read .integer (pyStrOfInt n)) = _
  simp only [typecast_for_read, pyIntE, pyIntOfString_pyStrOfInt]
  rfl

theorem rt_float (m : Int) :
    (typecast_for_storage .float (.float ((m : ℚ) / 1000000))).bind
      (typecast_for_read .float) = .ok (.float ((m : ℚ) / 1000000)) := by
  show typecast_for_read .float (pyFormatF ((m : ℚ) / 1000000)) = _
  have hround : round (((m : ℚ) / 1000000) * 1000000) = m := by
    have h : ((m : ℚ) / 1000000) * 1000000 = (m : ℚ) := by field_simp
    rw [h, round_intCast]
  have hr := pyFloatOfString_pyFormatF ((m : ℚ) / 1000000)
  rw [hround] at hr
  simp only [typecast_for_read, hr]
  norm_num

/-- Claim C3, counterexample: the float round-trip fails at 1/256 =
0.00390625, which percent-f stores as "0.003906"; reading it back yields
3906/1000000, not 1/256. -/
theorem rt_float_ce :
    (typecast_for_storage FieldKind.float (PyVal.float (1/256))).bind
      (typecast_for_read FieldKind.float) ≠ Except.ok (PyVal.float (1/256)) := by
  have hround : round ((1/256 : ℚ) * 1000000) = 3906 := by
    rw [round_eq]
    rw [show (1/256 : ℚ) * 1000000 + 1/2 = 15627/4 by norm_num]
    rw [Int.floor_eq_iff]
    constructor <;> norm_num
  have hr := pyFloatOfString_pyFormatF (1/256)
  rw [hround] at hr
  show typecast_for_read .float (pyFormatF (1/256 : ℚ)) ≠ _
  simp only [typecast_for_read, hr]
  intro h
  simp only [Except.ok.injEq, PyVal.float.injEq] at h
  norm_num at h

/-- Claim C9, amended: one iteration of `Mutex.lock` acquires the lock
exactly when the `SETNX` finds the key absent, or the current value is
expired and the value replaced away by `GETSET` is itself absent or
expired; while the observed lock value is unexpired the iteration sleeps
0.5 time units and retries; a successful acquisition writes `now + 1.0`;
and `unlock` unconditionally deletes the lock key.  (The claim's "two
concurrent synchronous saves never interleave writes" is refuted by the
counterexample: an expired lease is stolen even while its holder is still
writing.) -/
theorem mutex_amended :
    (∀ (s g gs : Option ℚ) (now : ℚ), (lockIter s g gs now).1 = LockOutcome.acquired ↔
        s = Option.none ∨ ∃ v, g = some v ∧ lock_has_expired v now = true ∧
          (gs = Option.none ∨ ∃ w, gs = some w ∧ lock_has_expired w now = true)) ∧
    (∀ (x v : ℚ) (gs : Option ℚ) (now : ℚ), lock_has_expired v now = false →
        (lockIter (some x) (some v) gs now).1 = LockOutcome.sleepRetry (1/2)) ∧
    (∀ (s g gs : Option ℚ) (now : ℚ), (lockIter s g gs now).1 = LockOutcome.acquired →
        (lockIter s g gs now).2 = some (now + 1)) ∧
    (∀ lv : Option ℚ, unlock lv = Option.none) := by
  refine ⟨?_, ?_, ?_, ?_⟩
  · intro s g gs now
    cases s with
    | none => simp [lockIter]
    | some x =>
      cases g with
      | none => simp [lockIter]
      | some v =>
        by_cases hv : lock_has_expired v now = true
        · cases gs with
          | none => simp [lockIter, hv]
          | some w =>
            by_cases hw : lock_has_expired w now = true <;>
              simp [lockIter, hv, hw]
        · simp [lockIter, hv]
  · intro x v gs now hv
    simp [lockIter, hv]
  · intro s g gs now h
    cases s with
    | none => simp [lockIter]
    | some x =>
      cases g with
      | none => simp [lockIter] at h
      | some v =>
        by_cases hv : lock_has_expired v now = true
        · cases gs with
          | none => simp [lockIter, hv]
          | some w =>
            by_cases hw : lock_has_expired w now = true
            · simp [lockIter, hv, hw]
            · simp [lockIter, hv, hw] at h
        · simp [lockIter, hv] at h
  · intro lv; rfl

/-- Claim C9, counterexample: it is not true that a lock-attempt
iteration always fails while another writer holds the lock.  Concretely a
writer that acquired at time 0 holds the lock value 1.0 and has not
released; at time 2 a second attempt observes that value at all three
commands and still acquires, so the two writes can interleave once the
1.0-unit lease has expired. -/
theorem mutex_ce :
    ¬ (∀ (tHeld now : ℚ),
        (lockIter (some tHeld) (some tHeld) (some tHeld) now).1 ≠ LockOutcome.acquired) := by
  intro h
  exact h 1 2 (by decide)

/-- Witness for C9's amended theorem at a concrete unexpired lock value:
with the lock value 5 and current time 2 the iteration sleeps 0.5 and
retries. -/
theorem mutex_wit :
    (lockIter (some 5) (some 5) Option.none 2).1 = LockOutcome.sleepRetry (1/2) :=
  mutex_amended.2.1 5 5 Option.none 2 (by decide)

theorem bindE_ok {α β : Type} (a : α) (f : α → Except PyErr β) :
    (Except.ok a >>= f) = f a := rfl

theorem bindE_err {α β : Type} (e : PyErr) (f : α → Except PyErr β) :
    (Except.error e >>= f) = Except.error e := rfl

/-- Claim C10, amended: `Model.__eq__` is true exactly when `self`'s
class is the same as or an ancestor of `other`'s class (Python
`isinstance`) and both keys are defined and equal; equal instances hash
equally since `__hash__` is the hash of `key()`; comparing raises
`MissingID` for a new instance only when the `isinstance` test passes
(the failing test short-circuits to `False`), and hashing a new instance
always raises `MissingID`. -/
theorem eq_amended :
    (∀ a b : Instance, model_eq a b = .ok true ↔
        (a.model.className ∈ b.model.ancestors ∧
         ∃ k, modelKey a = .ok k ∧ modelKey b = .ok k)) ∧
    (∀ a b : Instance, model_eq a b = .ok true → model_hash a = model_hash b) ∧
    (∀ a b : Instance, a.id? = Option.none →
        a.model.className ∈ b.model.ancestors →
        model_eq a b = .error .missingID) ∧
    (∀ a b : Instance, a.model.className ∉ b.model.ancestors →
        model_eq a b = .ok false) ∧
    (∀ a : Instance, a.id? = Option.none → model_hash a = .error .missingID) := by
  have hiff : ∀ a b : Instance, model_eq a b = .ok true ↔
      (a.model.className ∈ b.model.ancestors ∧
       ∃ k, modelKey a = .ok k ∧ modelKey b = .ok k) := by
    intro a b
    by_cases hc : a.model.className ∈ b.model.ancestors
    · cases ha : a.id? with
      | none => simp [model_eq, hc, modelKey, ha, bindE_err]
      | some i =>
        cases hb : b.id? with
        | none => simp [model_eq, hc, modelKey, ha, hb, bindE_ok, bindE_err]
        | some j =>
          simp only [model_eq, if_pos hc, modelKey, ha, hb, bindE_ok,
            Except.ok.injEq, beq_iff_eq]
          constructor
          · intro h
            exact ⟨hc, keyOf a.model i, rfl, h.symm⟩
          · rintro ⟨-, k, rfl, h2⟩
            exact h2.symm
    · simp only [model_eq]
      rw [if_neg hc]
      simp [hc]
  refine ⟨hiff, ?_, ?_, ?_, ?_⟩
  · intro a b h
    obtain ⟨-, k, h1, h2⟩ := (hiff a b).mp h
    rw [model_hash, model_hash, h1, h2]
  · intro a b ha hc
    simp only [model_eq]
    rw [if_pos hc]
    simp [modelKey, ha, bindE_err]
  · intro a b hc
    simp only [model_eq]
    rw [if_neg hc]
  · intro a ha
    simp [model_hash, modelKey, ha, Except.map]

/-- Claim C10, counterexample: equality is not "same runtime class and
same key": a `Child` subclass whose `Meta` key prefix equals `Parent`'s
yields `parent == child` true although the classes differ. -/
theorem eq_ce :
    model_eq instP instC = .ok true ∧ instP.model.className ≠ instC.model.className :=
  ⟨rfl, by decide⟩

/-- Witness for C10's amended theorem: two references to the same saved
`Parent` instance compare equal via the iff. -/
theorem eq_wit : model_eq instP instP = .ok true :=
  (eq_amended.1 instP instP).mpr ⟨by decide, "Parent:1", rfl, rfl⟩

theorem lookupAssoc_insert_self {α : Type} (l : List (String × α)) (k : String) (v : α) :
    lookupAssoc (insertAssoc l k v) k = some v := by
  induction l with
  | nil => simp [insertAssoc, lookupAssoc]
  | cons p rest ih =>
    obtain ⟨pk, pv⟩ := p
    by_cases h : k = pk
    · simp [insertAssoc, h, lookupAssoc]
    · simp [insertAssoc, h, lookupAssoc, ih]

theorem lookupAssoc_insert_ne {α : Type} (l : List (String × α)) (k k2 : String) (v : α)
    (h : k ≠ k2) : lookupAssoc (insertAssoc l k2 v) k = lookupAssoc l k := by
  induction l with
  | nil => simp [insertAssoc, lookupAssoc, h]
  | cons p rest ih =>
    obtain ⟨pk, pv⟩ := p
    by_cases h2 : k2 = pk
    · subst h2
      simp [insertAssoc, lookupAssoc, h, ih]
    · by_cases h3 : k = pk
      · simp [insertAssoc, lookupAssoc, h2, h3]
      · simp [insertAssoc, lookupAssoc, h2, h3, ih]

theorem setCache_model (inst : Instance) (n : String) (v : PyVal) :
    (setCache inst n v).model = inst.model := rfl

theorem setCache_id (inst : Instance) (n : String) (v : PyVal) :
    (setCache inst n v).id? = inst.id? := rfl

theorem attribute_get_inv (a : Attr) (inst : Instance) (st : Store) (isAsync : Bool)
    (v : PyVal) (i2 : Instance) (ops : List StoreOp)
    (h : attribute_get a inst st isAsync = .ok (v, i2, ops)) :
    i2.model = inst.model ∧ i2.id? = inst.id? ∧
      (∀ n, n ≠ a.name → lookupAssoc i2.cache n = lookupAssoc inst.cache n) ∧
      lookupAssoc i2.cache a.name = some v := by
  unfold attribute_get at h
  split at h
  · rename_i w hw
    obtain ⟨rfl, rfl, rfl⟩ : w = v ∧ inst = i2 ∧ [] = ops := by
      simpa using h
    exact ⟨rfl, rfl, fun n _ => rfl, hw⟩
  · rename_i hmiss
    split at h
    · rename_i i hi hasync
      split at h
      · obtain ⟨rfl, rfl, rfl⟩ : PyVal.none = v ∧ setCache inst a.name .none = i2 ∧ _ = ops := by
          simpa using h
        refine ⟨rfl, rfl, fun n hn => lookupAssoc_insert_ne _ _ _ _ hn, ?_⟩
        exact lookupAssoc_insert_self _ _ _
      · rename_i s hs
        cases hr : typecast_for_read a.kind s with
        | error e => rw [hr] at h; simp [Except.map] at h
        | ok w =>
          rw [hr] at h
          obtain ⟨rfl, rfl, rfl⟩ : w = v ∧ setCache inst a.name w = i2 ∧ _ = ops := by
            simpa [Except.map] using h
          refine ⟨rfl, rfl, fun n hn => lookupAssoc_insert_ne _ _ _ _ hn, ?_⟩
          exact lookupAssoc_insert_self _ _ _
    · obtain ⟨rfl, rfl, rfl⟩ : a.default = v ∧ setCache inst a.name a.default = i2 ∧ ops = [] := by
        simpa using h
      refine ⟨rfl, rfl, fun n hn => lookupAssoc_insert_ne _ _ _ _ hn, ?_⟩
      exact lookupAssoc_insert_self _ _ _
    · obtain ⟨rfl, rfl, rfl⟩ : a.default = v ∧ setCache inst a.name a.default = i2 ∧ ops = [] := by
        simpa using h
      refine ⟨rfl, rfl, fun n hn => lookupAssoc_insert_ne _ _ _ _ hn, ?_⟩
      exact lookupAssoc_insert_self _ _ _


theorem counter_get_inv (a : Attr) (inst : Instance) (st : Store) (isAsync : Bool)
    (v : PyVal) (i2 : Instance) (ops : List StoreOp)
    (h : counter_get a inst st isAsync = .ok (v, i2, ops)) : i2 = inst := by
  unfold counter_get at h
  split at h
  · split at h
    · obtain ⟨-, h2, -⟩ : PyVal.int 0 = v ∧ inst = i2 ∧ _ = ops := by simpa using h
      exact h2.symm
    · rename_i s hs
      cases hp : pyIntE s with
      | error e => rw [hp] at h; simp [Except.map] at h
      | ok n =>
        rw [hp] at h
        obtain ⟨-, h2, -⟩ : PyVal.int n = v ∧ inst = i2 ∧ _ = ops := by
          simpa [Except.map] using h
        exact h2.symm
  · obtain ⟨-, h2, -⟩ : PyVal.int 0 = v ∧ inst = i2 ∧ ops = [] := by simpa using h
    exact h2.symm
  · obtain ⟨-, h2, -⟩ : PyVal.int 0 = v ∧ inst = i2 ∧ ops = [] := by simpa using h
    exact h2.symm

theorem attrGet_eq_attribute_get (a : Attr) (inst : Instance) (st : Store) (isAsync : Bool)
    (hne : a.kind ≠ .counter) :
    attrGet a inst st isAsync = attribute_get a inst st isAsync := by
  cases hk : a.kind <;> first
    | exact absurd hk hne
    | simp only [attrGet, hk]

theorem attrGet_eq_counter_get (a : Attr) (inst : Instance) (st : Store) (isAsync : Bool)
    (hk : a.kind = .counter) :
    attrGet a inst st isAsync = counter_get a inst st isAsync := by
  simp only [attrGet, hk]

theorem attrGet_inv (a : Attr) (inst : Instance) (st : Store) (isAsync : Bool)
    (v : PyVal) (i2 : Instance) (ops : List StoreOp)
    (h : attrGet a inst st isAsync = .ok (v, i2, ops)) :
    i2.model = inst.model ∧ i2.id? = inst.id? ∧
      ∀ n, n ≠ a.name → lookupAssoc i2.cache n = lookupAssoc inst.cache n := by
  by_cases hk : a.kind = .counter
  · rw [attrGet_eq_counter_get a inst st isAsync hk] at h
    have := counter_get_inv a inst st isAsync v i2 ops h
    subst this
    exact ⟨rfl, rfl, fun n _ => rfl⟩
  · rw [attrGet_eq_attribute_get a inst st isAsync hk] at h
    obtain ⟨h1, h2, h3, -⟩ := attribute_get_inv a inst st isAsync v i2 ops h
    exact ⟨h1, h2, h3⟩

theorem attribute_get_ext (a : Attr) (i1 i2 : Instance) (st : Store) (isAsync : Bool)
    (hm : i1.model = i2.model) (hid : i1.id? = i2.id?)
    (hc : lookupAssoc i1.cache a.name = lookupAssoc i2.cache a.name) :
    (attribute_get a i1 st isAsync).map (fun r => r.1) =
      (attribute_get a i2 st isAsync).map (fun r => r.1) := by
  unfold attribute_get
  rw [hc, hid, hm]
  split
  · rfl
  · split
    · split
      · rfl
      · rename_i s hs
        cases hr : typecast_for_read a.kind s <;> simp [Except.map, hr]
    · rfl
    · rfl

theorem counter_get_ext (a : Attr) (i1 i2 : Instance) (st : Store) (isAsync : Bool)
    (hm : i1.model = i2.model) (hid : i1.id? = i2.id?) :
    (counter_get a i1 st isAsync).map (fun r => r.1) =
      (counter_get a i2 st isAsync).map (fun r => r.1) := by
  unfold counter_get
  rw [hid, hm]
  split
  · split
    · rfl
    · rename_i s hs
      cases hp : pyIntE s <;> simp [Except.map, hp]
  · rfl
  · rfl

theorem attrGet_ext (a : Attr) (i1 i2 : Instance) (st : Store) (isAsync : Bool)
    (hm : i1.model = i2.model) (hid : i1.id? = i2.id?)
    (hc : lookupAssoc i1.cache a.name = lookupAssoc i2.cache a.name) :
    (attrGet a i1 st isAsync).map (fun r => r.1) =
      (attrGet a i2 st isAsync).map (fun r => r.1) := by
  by_cases hk : a.kind = .counter
  · rw [attrGet_eq_counter_get a i1 st isAsync hk, attrGet_eq_counter_get a i2 st isAsync hk]
    exact counter_get_ext a i1 i2 st isAsync hm hid
  · rw [attrGet_eq_attribute_get a i1 st isAsync hk, attrGet_eq_attribute_get a i2 st isAsync hk]
    exact attribute_get_ext a i1 i2 st isAsync hm hid hc

theorem applyAutoNow_model (a : Attr) (inst : Instance) (isNew : Bool) (now : Int) :
    (applyAutoNow a inst isNew now).model = inst.model := by
  cases hk : a.kind with
  | datetimeF an ana =>
    simp only [applyAutoNow, hk]
    cases an <;> cases ana <;> cases isNew <;> simp [setCache]
  | dateF an ana =>
    simp only [applyAutoNow, hk]
    cases an <;> cases ana <;> cases isNew <;> simp [setCache]
  | plain => simp [applyAutoNow, hk]
  | char ml => simp [applyAutoNow, hk]
  | boolean => simp [applyAutoNow, hk]
  | integer => simp [applyAutoNow, hk]
  | float => simp [applyAutoNow, hk]
  | counter => simp [applyAutoNow, hk]

theorem applyAutoNow_id (a : Attr) (inst : Instance) (isNew : Bool) (now : Int) :
    (applyAutoNow a inst isNew now).id? = inst.id? := by
  cases hk : a.kind with
  | datetimeF an ana =>
    simp only [applyAutoNow, hk]
    cases an <;> cases ana <;> cases isNew <;> simp [setCache]
  | dateF an ana =>
    simp only [applyAutoNow, hk]
    cases an <;> cases ana <;> cases isNew <;> simp [setCache]
  | plain => simp [applyAutoNow, hk]
  | char ml => simp [applyAutoNow, hk]
  | boolean => simp [applyAutoNow, hk]
  | integer => simp [applyAutoNow, hk]
  | float => simp [applyAutoNow, hk]
  | counter => simp [applyAutoNow, hk]

theorem applyAutoNow_cache_ne (a : Attr) (inst : Instance) (isNew : Bool) (now : Int)
    (n : String) (hn : n ≠ a.name) :
    lookupAssoc (applyAutoNow a inst isNew now).cache n = lookupAssoc inst.cache n := by
  cases hk : a.kind with
  | datetimeF an ana =>
    simp only [applyAutoNow, hk]
    cases an <;> cases ana <;> cases isNew <;>
      simp [setCache, lookupAssoc_insert_ne _ _ _ _ hn]
  | dateF an ana =>
    simp only [applyAutoNow, hk]
    cases an <;> cases ana <;> cases isNew <;>
      simp [setCache, lookupAssoc_insert_ne _ _ _ _ hn]
  | plain => simp [applyAutoNow, hk]
  | char ml => simp [applyAutoNow, hk]
  | boolean => simp [applyAutoNow, hk]
  | integer => simp [applyAutoNow, hk]
  | float => simp [applyAutoNow, hk]
  | counter => simp [applyAutoNow, hk]

theorem applyAutoNow_counter (a : Attr) (inst : Instance) (isNew : Bool) (now : Int)
    (hk : a.kind = .counter) : applyAutoNow a inst isNew now = inst := by
  simp [applyAutoNow, hk]

theorem writeTimeValue_ext (a : Attr) (i1 i2 : Instance) (st : Store)
    (isAsync isNew : Bool) (now : Int)
    (hm : i1.model = i2.model) (hid : i1.id? = i2.id?)
    (hc : lookupAssoc i1.cache a.name = lookupAssoc i2.cache a.name) :
    writeTimeValue a i1 st isAsync isNew now = writeTimeValue a i2 st isAsync isNew now := by
  unfold writeTimeValue
  apply attrGet_ext
  · rw [applyAutoNow_model, applyAutoNow_model, hm]
  · rw [applyAutoNow_id, applyAutoNow_id, hid]
  · cases hk : a.kind with
    | datetimeF an ana =>
      simp only [applyAutoNow, hk]
      cases an <;> cases ana <;> cases isNew <;>
        simp [setCache, lookupAssoc_insert_self, hc]
    | dateF an ana =>
      simp only [applyAutoNow, hk]
      cases an <;> cases ana <;> cases isNew <;>
        simp [setCache, lookupAssoc_insert_self, hc]
    | plain => simpa [applyAutoNow, hk] using hc
    | char ml => simpa [applyAutoNow, hk] using hc
    | boolean => simpa [applyAutoNow, hk] using hc
    | integer => simpa [applyAutoNow, hk] using hc
    | float => simpa [applyAutoNow, hk] using hc
    | counter => simpa [applyAutoNow, hk] using hc


/-- Claim C6, amended: for every non-counter field, a read on a new or
asynchronous-mode instance returns the declared default without store
access and caches it; any read after a first successful read returns the
same value from the cache with no store traffic.  Counter fields are the
exception the claim misses: `Counter.__get__` never caches (a saved
instance re-queries the store on every synchronous read) and returns 0 —
not the declared default — for new instances or asynchronous mode. -/
theorem attr_access_amended :
    (∀ (a : Attr) (inst : Instance) (st : Store) (isAsync : Bool),
        a.kind ≠ .counter →
        lookupAssoc inst.cache a.name = Option.none →
        (inst.id? = Option.none ∨ isAsync = true) →
        attrGet a inst st isAsync = .ok (a.default, setCache inst a.name a.default, [])) ∧
    (∀ (a : Attr) (inst : Instance) (st : Store) (isAsync : Bool) (v : PyVal)
        (i2 : Instance) (ops : List StoreOp),
        a.kind ≠ .counter →
        attrGet a inst st isAsync = .ok (v, i2, ops) →
        attrGet a i2 st isAsync = .ok (v, i2, [])) ∧
    (∀ (a : Attr) (inst : Instance) (st : Store) (i : String) (v : PyVal)
        (i2 : Instance) (ops : List StoreOp),
        a.kind = .counter → inst.id? = some i →
        attrGet a inst st false = .ok (v, i2, ops) →
        i2 = inst ∧ ops = [.hget (keyOf inst.model i) a.name]) ∧
    (∀ (a : Attr) (inst : Instance) (st : Store) (isAsync : Bool),
        a.kind = .counter → (inst.id? = Option.none ∨ isAsync = true) →
        attrGet a inst st isAsync = .ok (.int 0, inst, [])) := by
  refine ⟨?_, ?_, ?_, ?_⟩
  · intro a inst st isAsync hne hmiss hna
    rw [attrGet_eq_attribute_get a inst st isAsync hne]
    unfold attribute_get
    rw [hmiss]
    rcases hna with ha | ha
    · rw [ha]
    · rw [ha]
      cases hi : inst.id? <;> rfl
  · intro a inst st isAsync v i2 ops hne h
    rw [attrGet_eq_attribute_get a inst st isAsync hne] at h
    rw [attrGet_eq_attribute_get a i2 st isAsync hne]
    have hcache := (attribute_get_inv a inst st isAsync v i2 ops h).2.2.2
    unfold attribute_get
    rw [hcache]
  · intro a inst st i v i2 ops hk hi h
    rw [attrGet_eq_counter_get a inst st false hk] at h
    unfold counter_get at h
    split at h
    · rename_i ix hidx hfb
      rw [hi] at hidx
      rw [show ix = i from (Option.some.inj hidx).symm] at h
      split at h
      · obtain ⟨-, h2, h3⟩ : PyVal.int 0 = v ∧ inst = i2 ∧
            [StoreOp.hget (keyOf inst.model i) a.name] = ops := by simpa using h
        exact ⟨h2.symm, h3.symm⟩
      · rename_i s hs
        cases hp : pyIntE s with
        | error e => rw [hp] at h; simp [Except.map] at h
        | ok n =>
          rw [hp] at h
          obtain ⟨-, h2, h3⟩ : PyVal.int n = v ∧ inst = i2 ∧
              [StoreOp.hget (keyOf inst.model i) a.name] = ops := by
            simpa [Except.map] using h
          exact ⟨h2.symm, h3.symm⟩
    · rename_i heq2 heq3
      simp at heq3
    · rename_i hnone
      rw [hi] at hnone
      simp at hnone
  · intro a inst st isAsync hk hna
    rw [attrGet_eq_counter_get a inst st isAsync hk]
    unfold counter_get
    rcases hna with ha | ha
    · rw [ha]
    · rw [ha]
      cases hi : inst.id? <;> rfl

/-- Claim C6, counterexample: a counter declared with default 5 reads 0
on a new instance, so reading a new instance's field does not always
return the declared default. -/
theorem attr_access_ce :
    attrGet hitsAttr5 newGame5 emptyStore false = .ok (.int 0, newGame5, []) ∧
    hitsAttr5.default ≠ PyVal.int 0 := ⟨rfl, by decide⟩

/-- Witness for C6's amended theorem: a plain text field on a new
instance reads its default with no store operations. -/
theorem attr_access_wit :
    attrGet gameNameAttr (⟨gameModel, Option.none, []⟩ : Instance) emptyStore false =
      .ok (gameNameAttr.default,
        setCache ⟨gameModel, Option.none, []⟩ gameNameAttr.name gameNameAttr.default, []) :=
  attr_access_amended.1 gameNameAttr ⟨gameModel, Option.none, []⟩ emptyStore false
    (by decide) rfl (Or.inl rfl)


theorem writeEntries_cons (a : Attr) (rest : List Attr) (inst : Instance) (st : Store)
    (isAsync isNew : Bool) (now : Int) (h : List (String × String)) (i2 : Instance)
    (ops : List StoreOp)
    (hok : writeEntries (a :: rest) inst st isAsync isNew now = .ok (h, i2, ops)) :
    ∃ v ia opsa hr ir opsr,
      attrGet a (applyAutoNow a inst isNew now) st isAsync = .ok (v, ia, opsa) ∧
      writeEntries rest ia st isAsync isNew now = .ok (hr, ir, opsr) ∧
      i2 = ir ∧ ops = opsa ++ opsr ∧
      ((v = PyVal.none ∧ h = hr) ∨
       (v ≠ PyVal.none ∧ ∃ s, typecast_for_storage a.kind v = .ok s ∧ h = (a.name, s) :: hr)) := by
  unfold writeEntries at hok
  simp only [] at hok
  cases hg : attrGet a (applyAutoNow a inst isNew now) st isAsync with
  | error e => rw [hg] at hok; exact absurd hok (by simp [bindE_err])
  | ok r =>
    rw [hg, bindE_ok] at hok
    cases hw : writeEntries rest r.2.1 st isAsync isNew now with
    | error e => rw [hw] at hok; exact absurd hok (by simp [bindE_err])
    | ok rr =>
      rw [hw, bindE_ok] at hok
      by_cases hv : r.1 = PyVal.none
      · rw [if_pos hv] at hok
        obtain ⟨h1, h2, h3⟩ : rr.1 = h ∧ rr.2.1 = i2 ∧ r.2.2 ++ rr.2.2 = ops := by
          simpa using hok
        exact ⟨r.1, r.2.1, r.2.2, rr.1, rr.2.1, rr.2.2, rfl, hw,
          h2.symm, h3.symm, Or.inl ⟨hv, h1.symm⟩⟩
      · rw [if_neg hv] at hok
        cases hs : typecast_for_storage a.kind r.1 with
        | error e => rw [hs] at hok; exact absurd hok (by simp [bindE_err])
        | ok s =>
          rw [hs, bindE_ok] at hok
          obtain ⟨h1, h2, h3⟩ : (a.name, s) :: rr.1 = h ∧ rr.2.1 = i2 ∧
              r.2.2 ++ rr.2.2 = ops := by simpa using hok
          exact ⟨r.1, r.2.1, r.2.2, rr.1, rr.2.1, rr.2.2, rfl, hw,
            h2.symm, h3.symm, Or.inr ⟨hv, s, hs, h1.symm⟩⟩

theorem writeEntries_keys (attrs : List Attr) : ∀ (inst : Instance) (st : Store)
    (isAsync isNew : Bool) (now : Int) (h : List (String × String)) (i2 : Instance)
    (ops : List StoreOp) (k : String),
    writeEntries attrs inst st isAsync isNew now = .ok (h, i2, ops) →
    ¬ k ∈ attrs.map (fun a => a.name) →
    lookupAssoc h k = Option.none := by
  induction attrs with
  | nil =>
    intro inst st isAsync isNew now h i2 ops k hok hk
    obtain ⟨rfl, -, -⟩ : [] = h ∧ inst = i2 ∧ [] = ops := by
      simpa [writeEntries] using hok
    rfl
  | cons b rest ih =>
    intro inst st isAsync isNew now h i2 ops k hok hk
    obtain ⟨v, ia, opsa, hr, ir, opsr, hg, hw, -, -, hcase⟩ :=
      writeEntries_cons b rest inst st isAsync isNew now h i2 ops hok
    have hkrest : ¬ k ∈ rest.map (fun a => a.name) := by
      simp only [List.map_cons, List.mem_cons] at hk
      exact fun hmem => hk (Or.inr hmem)
    have hkb : k ≠ b.name := by
      simp only [List.map_cons, List.mem_cons] at hk
      exact fun hmem => hk (Or.inl hmem)
    have htail := ih ia st isAsync isNew now hr ir opsr k hw hkrest
    rcases hcase with ⟨-, rfl⟩ | ⟨-, s, -, rfl⟩
    · exact htail
    · show lookupAssoc ((b.name, s) :: hr) k = Option.none
      simp only [lookupAssoc]
      rw [if_neg hkb]
      exact htail

/-- Claim C5: in the storage-hash loop shared by `Model._write`
(`isAsync = false`) and `Model._get_data_for_storage` (`isAsync = true`),
a field whose value at write time (after the auto-now refresh) is `None`
is omitted from the built hash entirely, for every record instance and
every field of its type. -/
theorem write_omits_none :
    ∀ (attrs : List Attr) (inst : Instance) (st : Store) (isAsync isNew : Bool) (now : Int)
      (h : List (String × String)) (i2 : Instance) (ops : List StoreOp) (a : Attr),
    (attrs.map fun x => x.name).Nodup →
    writeEntries attrs inst st isAsync isNew now = .ok (h, i2, ops) →
    a ∈ attrs →
    writeTimeValue a inst st isAsync isNew now = .ok PyVal.none →
    lookupAssoc h a.name = Option.none := by
  intro attrs
  induction attrs with
  | nil =>
    intro inst st isAsync isNew now h i2 ops a _ _ hmem _
    exact absurd hmem (List.not_mem_nil a)
  | cons b rest ih =>
    intro inst st isAsync isNew now h i2 ops a hnd hok hmem hval
    obtain ⟨v, ia, opsa, hr, ir, opsr, hg, hw, -, -, hcase⟩ :=
      writeEntries_cons b rest inst st isAsync isNew now h i2 ops hok
    simp only [List.map_cons, List.nodup_cons] at hnd
    rcases List.mem_cons.mp hmem with rfl | hmem2
    · have hveq : writeTimeValue a inst st isAsync isNew now = .ok v := by
        unfold writeTimeValue
        rw [hg]
        rfl
      have hv : v = PyVal.none := by
        rw [hval] at hveq
        exact (Except.ok.inj hveq).symm
      rcases hcase with ⟨-, rfl⟩ | ⟨hne, -⟩
      · exact writeEntries_keys rest ia st isAsync isNew now _ _ _ a.name hw
          (by simpa using hnd.1)
      · exact absurd hv hne
    · have hbne : b.name ≠ a.name := by
        intro he
        exact hnd.1 (he ▸ List.mem_map_of_mem (fun x => x.name) hmem2)
      obtain ⟨him, hii, hic⟩ := attrGet_inv b (applyAutoNow b inst isNew now) st isAsync
        v ia opsa hg
      have hval2 : writeTimeValue a ia st isAsync isNew now = .ok PyVal.none := by
        have hext := writeTimeValue_ext a ia inst st isAsync isNew now
          (him.trans (applyAutoNow_model b inst isNew now))
          (hii.trans (applyAutoNow_id b inst isNew now))
          (by
            rw [hic a.name (fun he => hbne he.symm)]
            exact applyAutoNow_cache_ne b inst isNew now a.name (fun he => hbne he.symm))
        rw [hext, hval]
      have htail := ih ia st isAsync isNew now _ _ _ a hnd.2 hw hmem2 hval2
      rcases hcase with ⟨-, rfl⟩ | ⟨-, s, -, rfl⟩
      · exact htail
      · show lookupAssoc ((b.name, s) :: hr) a.name = Option.none
        simp only [lookupAssoc]
        rw [if_neg (fun he => hbne he.symm)]
        exact htail


theorem counter_get_shape (a : Attr) (inst : Instance) (st : Store) (isAsync : Bool)
    (v : PyVal) (i2 : Instance) (ops : List StoreOp)
    (h : counter_get a inst st isAsync = .ok (v, i2, ops)) : ∃ n : Int, v = .int n := by
  unfold counter_get at h
  split at h
  · split at h
    · refine ⟨0, ?_⟩
      obtain ⟨h1, -, -⟩ : PyVal.int 0 = v ∧ inst = i2 ∧ _ = ops := by simpa using h
      exact h1.symm
    · rename_i s hs
      cases hp : pyIntE s with
      | error e => rw [hp] at h; simp [Except.map] at h
      | ok n =>
        rw [hp] at h
        refine ⟨n, ?_⟩
        obtain ⟨h1, -, -⟩ : PyVal.int n = v ∧ inst = i2 ∧ _ = ops := by
          simpa [Except.map] using h
        exact h1.symm
  · exact ⟨0, by
      obtain ⟨h1, -, -⟩ : PyVal.int 0 = v ∧ inst = i2 ∧ ops = [] := by simpa using h
      exact h1.symm⟩
  · exact ⟨0, by
      obtain ⟨h1, -, -⟩ : PyVal.int 0 = v ∧ inst = i2 ∧ ops = [] := by simpa using h
      exact h1.symm⟩


theorem writeEntries_counter_entry :
    ∀ (attrs : List Attr) (inst : Instance) (st : Store) (isAsync isNew : Bool) (now : Int)
      (h : List (String × String)) (i2 : Instance) (ops : List StoreOp) (c : Attr),
    (attrs.map fun x => x.name).Nodup →
    writeEntries attrs inst st isAsync isNew now = .ok (h, i2, ops) →
    c ∈ attrs → c.kind = .counter →
    ∃ n : Int, writeTimeValue c inst st isAsync isNew now = .ok (.int n) ∧
      lookupAssoc h c.name = some (pyStrOfInt n) := by
  intro attrs
  induction attrs with
  | nil =>
    intro inst st isAsync isNew now h i2 ops c _ _ hmem _
    exact absurd hmem (List.not_mem_nil c)
  | cons b rest ih =>
    intro inst st isAsync isNew now h i2 ops c hnd hok hmem hk
    obtain ⟨v, ia, opsa, hr, ir, opsr, hg, hw, -, -, hcase⟩ :=
      writeEntries_cons b rest inst st isAsync isNew now h i2 ops hok
    simp only [List.map_cons, List.nodup_cons] at hnd
    rcases List.mem_cons.mp hmem with rfl | hmem2
    · have hg2 : counter_get c (applyAutoNow c inst isNew now) st isAsync = .ok (v, ia, opsa) := by
        rw [← attrGet_eq_counter_get c (applyAutoNow c inst isNew now) st isAsync hk]
        exact hg
      obtain ⟨n, rfl⟩ :=
        counter_get_shape c (applyAutoNow c inst isNew now) st isAsync v ia opsa hg2
      have hwv : writeTimeValue c inst st isAsync isNew now = .ok (.int n) := by
        unfold writeTimeValue
        rw [hg]
        rfl
      refine ⟨n, hwv, ?_⟩
      rcases hcase with ⟨hnone, -⟩ | ⟨-, s, hs, rfl⟩
      · exact absurd hnone (by simp)
      · have hsv : s = pyStrOfInt n := by
          rw [show typecast_for_storage c.kind (PyVal.int n) =
              .ok (pyStrOfInt n) by rw [hk]; rfl] at hs
          exact (Except.ok.inj hs).symm
        show lookupAssoc ((c.name, s) :: _) c.name = some (pyStrOfInt n)
        simp [lookupAssoc, hsv]
    · have hbne : b.name ≠ c.name := by
        intro he
        exact hnd.1 (he ▸ List.mem_map_of_mem (fun x => x.name) hmem2)
      obtain ⟨him, hii, hic⟩ := attrGet_inv b (applyAutoNow b inst isNew now) st isAsync
        v ia opsa hg
      have hext : writeTimeValue c ia st isAsync isNew now =
          writeTimeValue c inst st isAsync isNew now :=
        writeTimeValue_ext c ia inst st isAsync isNew now
          (him.trans (applyAutoNow_model b inst isNew now))
          (hii.trans (applyAutoNow_id b inst isNew now))
          (by
            rw [hic c.name (fun he => hbne he.symm)]
            exact applyAutoNow_cache_ne b inst isNew now c.name (fun he => hbne he.symm))
      obtain ⟨n, hwv, hl⟩ := ih ia st isAsync isNew now _ _ _ c hnd.2 hw hmem2 hk
      refine ⟨n, hext ▸ hwv, ?_⟩
      rcases hcase with ⟨-, rfl⟩ | ⟨-, s, -, rfl⟩
      · exact hl
      · show lookupAssoc ((b.name, s) :: _) c.name = some (pyStrOfInt n)
        simp only [lookupAssoc]
        rw [if_neg (fun he => hbne he.symm)]
        exact hl

/-- Claim C1, amended: the hash written by save always CONTAINS every
counter field (`Counter` is an `Attribute`, so it is iterated by
`_write`/`_get_data_for_storage`): the entry holds `unicode(n)` where `n`
is the value `Counter.__get__` produced at write time — under the
asynchronous path always 0 (so `save_async` resets stored counters), and
under the synchronous path the value re-read from the store (0 when
absent). -/
theorem save_rewrites_counters :
    ∀ (attrs : List Attr) (inst : Instance) (st : Store) (isAsync isNew : Bool) (now : Int)
      (h : List (String × String)) (i2 : Instance) (ops : List StoreOp) (c : Attr) (i : String),
    (attrs.map fun x => x.name).Nodup →
    writeEntries attrs inst st isAsync isNew now = .ok (h, i2, ops) →
    c ∈ attrs → c.kind = .counter → inst.id? = some i →
    ∃ n : Int, lookupAssoc h c.name = some (pyStrOfInt n) ∧
      (isAsync = true → n = 0) ∧
      (isAsync = false → hgetS st (keyOf inst.model i) c.name = Option.none → n = 0) ∧
      (∀ s, isAsync = false → hgetS st (keyOf inst.model i) c.name = some s →
          pyIntOfString s = some n) := by
  intro attrs inst st isAsync isNew now h i2 ops c i hnd hok hmem hk hi
  obtain ⟨n, hwv, hl⟩ :=
    writeEntries_counter_entry attrs inst st isAsync isNew now h i2 ops c hnd hok hmem hk
  refine ⟨n, hl, ?_, ?_, ?_⟩
  all_goals
    unfold writeTimeValue at hwv
    rw [applyAutoNow_counter c inst isNew now hk,
      attrGet_eq_counter_get c inst st isAsync hk] at hwv
    unfold counter_get at hwv
    rw [hi] at hwv
  · intro hasync
    rw [hasync] at hwv
    simp only at hwv
    exact (PyVal.int.inj (Except.ok.inj hwv)).symm
  · intro hsync hnone
    rw [hsync] at hwv
    simp only at hwv
    rw [hnone] at hwv
    simpa using (PyVal.int.inj (Except.ok.inj hwv)).symm
  · intro s hsync hsome
    rw [hsync] at hwv
    simp only at hwv
    rw [hsome] at hwv
    simp only [] at hwv
    cases hp : pyIntE s with
    | error e => rw [hp] at hwv; simp [Except.map] at hwv
    | ok m =>
      rw [hp] at hwv
      have : m = n := by simpa [Except.map] using hwv
      unfold pyIntE at hp
      cases hio : pyIntOfString s with
      | none => rw [hio] at hp; simp at hp
      | some m2 =>
        rw [hio] at hp
        simp at hp
        rw [hp, this]


/-- Claim C1, counterexample: for a saved record with counter `hits = 7`
in the store, the synchronous `_write` writes a hash that contains
`hits = "7"`, and the asynchronous `_get_data_for_storage` builds a hash
containing `hits = "0"` — the written payload does contain the counter
field. -/
theorem counter_in_hash_ce :
    (model_write gameInst gameStore false 0).map
        (fun r => hgetS r.2.1 (keyOf gameModel "1") "hits") = .ok (some "7") ∧
    (get_data_for_storage gameInst gameStore false 0).map
        (fun r => lookupAssoc r.1 "hits") = .ok (some "0") := ⟨rfl, rfl⟩

/-- Witness for C1's amended theorem on the concrete `Game` fixture:
the written hash holds `hits` with the re-read store value 7. -/
theorem save_rewrites_counters_wit :
    ∃ n : Int, lookupAssoc [("name", "ok"), ("hits", "7")] "hits" = some (pyStrOfInt n) ∧
      (false = true → n = 0) ∧
      (false = false → hgetS gameStore (keyOf gameModel "1") "hits" = Option.none → n = 0) ∧
      (∀ s, false = false → hgetS gameStore (keyOf gameModel "1") "hits" = some s →
          pyIntOfString s = some n) :=
  save_rewrites_counters gameModel.attrs gameInst gameStore false false 0
    [("name", "ok"), ("hits", "7")] gameInst [.hget (keyOf gameModel "1") "hits"]
    gameHitsAttr "1" (by decide) rfl
    (List.mem_cons_of_mem _ (List.mem_cons_self _ _)) rfl rfl

/-- Witness for C5: a saved instance whose text field holds `None`
produces a hash without that field. -/
theorem write_omits_none_wit :
    lookupAssoc ([] : List (String × String)) reqNameAttr.name = Option.none :=
  write_omits_none [reqNameAttr] ⟨reqModel, some "1", [("name", PyVal.none)]⟩
    emptyStore false false 0 [] ⟨reqModel, some "1", [("name", PyVal.none)]⟩ []
    reqNameAttr (by decide) rfl (List.mem_cons_self _ _) rfl


theorem attrGet_new (a : Attr) (inst : Instance) (st : Store) (isAsync : Bool)
    (hid : inst.id? = Option.none) :
    ∃ v i2, attrGet a inst st isAsync = .ok (v, i2, []) ∧ i2.id? = Option.none ∧
      i2.model = inst.model ∧
      (∀ n, n ≠ a.name → lookupAssoc i2.cache n = lookupAssoc inst.cache n) ∧
      (a.kind ≠ .counter → lookupAssoc inst.cache a.name = Option.none → v = a.default) := by
  by_cases hk : a.kind = .counter
  · refine ⟨.int 0, inst, ?_, hid, rfl, fun n _ => rfl, fun hne _ => absurd hk hne⟩
    rw [attrGet_eq_counter_get a inst st isAsync hk]
    unfold counter_get
    rw [hid]
  · rw [attrGet_eq_attribute_get a inst st isAsync hk]
    cases hc : lookupAssoc inst.cache a.name with
    | some w =>
      refine ⟨w, inst, ?_, hid, rfl, fun n _ => rfl, fun _ hmiss => ?_⟩
      · unfold attribute_get
        rw [hc]
      · exact absurd hmiss (by simp)
    | none =>
      refine ⟨a.default, setCache inst a.name a.default, ?_,
        (setCache_id inst a.name a.default).trans hid, setCache_model inst a.name a.default,
        fun n hn => lookupAssoc_insert_ne _ _ _ _ hn, fun _ _ => rfl⟩
      unfold attribute_get
      rw [hc, hid]

theorem attrValidate_new (a : Attr) (inst : Instance) (st : Store) (isAsync : Bool)
    (hid : inst.id? = Option.none) (errs : List (String × String)) (i2 : Instance)
    (ops : List StoreOp)
    (h : attrValidate a inst st isAsync = .ok (errs, i2, ops)) :
    ops = [] ∧ i2.id? = Option.none ∧ i2.model = inst.model ∧
      (∀ n, n ≠ a.name → lookupAssoc i2.cache n = lookupAssoc inst.cache n) ∧
      (a.required = true → a.default = PyVal.none → a.kind ≠ .counter →
        lookupAssoc inst.cache a.name = Option.none → (a.name, "required") ∈ errs) := by
  obtain ⟨v, i2x, hg, hi2, hm2, hcp, hdef⟩ := attrGet_new a inst st isAsync hid
  unfold attrValidate at h
  rw [hg, bindE_ok] at h
  simp only [] at h
  cases he4 : char_length_errors a v with
  | error e => rw [he4] at h; exact absurd h (by simp [bindE_err])
  | ok e4v =>
    rw [he4, bindE_ok] at h
    obtain ⟨he, hi, ho⟩ :
        ((if pyTruthy v = true ∧ ¬acceptable a.kind v = true then [(a.name, "bad type")]
            else []) ++
          (if a.required = true ∧ (v = PyVal.none ∨ strippedEmpty v = true) then
            [(a.name, "required")] else []) ++
          (match a.validator with
            | some f => f a.name v
            | Option.none => []) ++ e4v) = errs ∧ i2x = i2 ∧ ([] : List StoreOp) = ops := by
      simpa using h
    subst hi
    refine ⟨ho.symm, hi2, hm2, hcp, fun hr hd hnc hmiss => ?_⟩
    rw [← he]
    have hv : v = PyVal.none := by rw [hdef hnc hmiss, hd]
    have hcond : a.required = true ∧ (v = PyVal.none ∨ strippedEmpty v = true) :=
      ⟨hr, Or.inl hv⟩
    rw [if_pos hcond]
    exact List.mem_append_left _
      (List.mem_append_left _ (List.mem_append_right _ (List.mem_cons_self _ _)))


theorem validateFields_new :
    ∀ (attrs : List Attr) (inst : Instance) (st : Store) (isAsync : Bool)
      (errs : List (String × String)) (i2 : Instance) (ops : List StoreOp),
    inst.id? = Option.none →
    validateFields attrs inst st isAsync = .ok (errs, i2, ops) →
    ops = [] ∧ i2.id? = Option.none ∧
      ∀ a, a ∈ attrs → (attrs.map fun x => x.name).Nodup →
        a.required = true → a.default = PyVal.none → a.kind ≠ .counter →
        lookupAssoc inst.cache a.name = Option.none →
        (a.name, "required") ∈ errs := by
  intro attrs
  induction attrs with
  | nil =>
    intro inst st isAsync errs i2 ops hid h
    obtain ⟨-, hi, ho⟩ : [] = errs ∧ inst = i2 ∧ ([] : List StoreOp) = ops := by
      simpa [validateFields] using h
    exact ⟨ho.symm, hi ▸ hid, fun a hmem _ _ _ _ _ => absurd hmem (List.not_mem_nil a)⟩
  | cons b rest ih =>
    intro inst st isAsync errs i2 ops hid h
    unfold validateFields at h
    cases hv : attrValidate b inst st isAsync with
    | error e => rw [hv] at h; exact absurd h (by simp [bindE_err])
    | ok rb =>
      rw [hv, bindE_ok] at h
      cases hrest : validateFields rest rb.2.1 st isAsync with
      | error e => rw [hrest] at h; exact absurd h (by simp [bindE_err])
      | ok rr =>
        rw [hrest, bindE_ok] at h
        obtain ⟨he, hi, ho⟩ : rb.1 ++ rr.1 = errs ∧ rr.2.1 = i2 ∧
            rb.2.2 ++ rr.2.2 = ops := by simpa using h
        obtain ⟨hops1, hid1, hm1, hcp1, hreq1⟩ :=
          attrValidate_new b inst st isAsync hid rb.1 rb.2.1 rb.2.2 (hv.trans rfl)
        obtain ⟨hops2, hid2, hmem2⟩ :=
          ih rb.2.1 st isAsync rr.1 rr.2.1 rr.2.2 hid1 (hrest.trans rfl)
        refine ⟨by rw [← ho, hops1, hops2]; rfl, by rw [← hi]; exact hid2, ?_⟩
        intro a hmem hnd hr hd hnc hmiss
        simp only [List.map_cons, List.nodup_cons] at hnd
        rcases List.mem_cons.mp hmem with rfl | hmem3
        · rw [← he]
          exact List.mem_append_left _ (hreq1 hr hd hnc hmiss)
        · have hbne : b.name ≠ a.name := by
            intro hee
            exact hnd.1 (hee ▸ List.mem_map_of_mem (fun x => x.name) hmem3)
          have hmiss2 : lookupAssoc rb.2.1.cache a.name = Option.none := by
            rw [hcp1 a.name (fun hee => hbne hee.symm)]
            exact hmiss
          rw [← he]
          exact List.mem_append_right _ (hmem2 a hmem3 hnd.2 hr hd hnc hmiss2)

/-- Claim C4: saving a new instance with a required (non-counter) field
left absent (no cached value, default `None`) returns the validation
error list containing `(field, "required")` instead of raising; the store
is unchanged, no store command is issued (in particular the identity
counter is not incremented), and no identity is assigned. -/
theorem save_requires_required (inst : Instance) (st : Store) (now : Int) (a : Attr)
    (res : SaveResult) (i2 : Instance) (st2 : Store) (ops : List StoreOp)
    (hid : inst.id? = Option.none)
    (hnd : (inst.model.attrs.map fun x => x.name).Nodup)
    (hmem : a ∈ inst.model.attrs)
    (hr : a.required = true) (hd : a.default = PyVal.none) (hnc : a.kind ≠ .counter)
    (hmiss : lookupAssoc inst.cache a.name = Option.none)
    (h : save inst st now = .ok (res, i2, st2, ops)) :
    (∃ errs, res = .validationErrors errs ∧ (a.name, "required") ∈ errs) ∧
      st2 = st ∧ ops = [] ∧ i2.id? = Option.none := by
  unfold save at h
  cases hvv : is_valid inst st false with
  | error e => rw [hvv] at h; exact absurd h (by simp [bindE_err])
  | ok v3 =>
    rw [hvv, bindE_ok] at h
    unfold is_valid at hvv
    cases hvf : validateFields inst.model.attrs inst st false with
    | error e => rw [hvf] at hvv; exact absurd hvv (by simp [bindE_err])
    | ok rf =>
      rw [hvf, bindE_ok] at hvv
      obtain ⟨hops1, hid1, hmemf⟩ :=
        validateFields_new inst.model.attrs inst st false rf.1 rf.2.1 rf.2.2 hid
          (hvf.trans rfl)
      have hin : (a.name, "required") ∈ rf.1 := hmemf a hmem hnd hr hd hnc hmiss
      obtain ⟨he3, hi3, ho3⟩ :
          rf.1 ++ inst.model.hook rf.2.1.id? rf.2.1.cache = v3.1 ∧
          rf.2.1 = v3.2.1 ∧ rf.2.2 = v3.2.2 := by
        have := Except.ok.inj hvv
        exact ⟨congrArg (fun x => x.1) this, congrArg (fun x => x.2.1) this,
          congrArg (fun x => x.2.2) this⟩
      have hin3 : (a.name, "required") ∈ v3.1 := by
        rw [← he3]
        exact List.mem_append_left _ hin
      have hne : v3.1 ≠ [] := List.ne_nil_of_mem hin3
      rw [if_pos hne] at h
      obtain ⟨hres, hi4, hst4, ho4⟩ :
          SaveResult.validationErrors v3.1 = res ∧ v3.2.1 = i2 ∧ st = st2 ∧
            v3.2.2 = ops := by
        have := Except.ok.inj h
        exact ⟨congrArg (fun x => x.1) this, congrArg (fun x => x.2.1) this,
          congrArg (fun x => x.2.2.1) this, congrArg (fun x => x.2.2.2) this⟩
      refine ⟨⟨v3.1, hres.symm, hin3⟩, hst4.symm, ?_, ?_⟩
      · rw [← ho4, ← ho3, hops1]
      · rw [← hi4, ← hi3]
        exact hid1

/-- Witness for C4: saving the new `Person` fixture with its required
`name` absent returns exactly `[("name", "required")]`, leaves the empty
store untouched, issues no commands and assigns no identity. -/
theorem save_requires_required_wit :
    (∃ errs, SaveResult.validationErrors [("name", "required")] =
        SaveResult.validationErrors errs ∧ ("name", "required") ∈ errs) ∧
      emptyStore = emptyStore ∧ ([] : List StoreOp) = [] ∧
      (⟨reqModel, Option.none, [("name", PyVal.none)]⟩ : Instance).id? = Option.none :=
  save_requires_required reqInst emptyStore 0 reqNameAttr
    (SaveResult.validationErrors [("name", "required")])
    ⟨reqModel, Option.none, [("name", PyVal.none)]⟩ emptyStore []
    rfl (by decide) (List.mem_cons_self _ _) rfl rfl (by decide) rfl rfl


/-- Claim C3, amended: the read-cast composed with the storage-cast is the
identity for every bool and every int; for floats it holds exactly on the
values expressible with six fractional decimal digits (those of the form
m / 10^6), because percent-f storage rounds to six fractional digits.
(Date/datetime are excluded by the claim itself.) -/
theorem round_trip_amended :
    (∀ b : Bool, (typecast_for_storage .boolean (.bool b)).bind (typecast_for_read .boolean) =
        .ok (.bool b)) ∧
    (∀ n : Int, (typecast_for_storage .integer (.int n)).bind (typecast_for_read .integer) =
        .ok (.int n)) ∧
    (∀ m : Int, (typecast_for_storage .float (.float ((m : ℚ) / 1000000))).bind
        (typecast_for_read .float) = .ok (.float ((m : ℚ) / 1000000))) :=
  ⟨rt_bool, rt_int, rt_float⟩

/-- Claim C7 (code bug): `get_by_ids_async` pipelines one `HMGET` per
identity in input order (second conjunct), but its `any(od.values())`
filter never excludes anything because `object_dict` always contains the
truthy `id` entry: with three identities of which the middle record does
not exist (all fields `None`), the callback receives 3 elements, not the
claimed 2. -/
theorem get_by_ids_includes_empty :
    (get_by_ids_on_response hydModel emptyStore ["1", "2", "3"]
        (AsyncResL.list
          [[("name", some "a"), ("note", Option.none)],
           [("name", Option.none), ("note", Option.none)],
           [("name", some "c"), ("note", Option.none)]])).map
        (fun r => r.2.length) = .ok 3 ∧
    get_by_ids_requests hydModel ["1", "2", "3"] =
      [.hmget (keyOf hydModel "1") ["name", "note"],
       .hmget (keyOf hydModel "2") ["name", "note"],
       .hmget (keyOf hydModel "3") ["name", "note"]] := ⟨rfl, rfl⟩

end Bredis
